import Mathlib

/-!
# Verification of the `small::basic_small_string` storage engine

Shallow embedding of `include/smallstring.hpp` (clapdb/smallstring).

The 8-byte tagged core (`malloc_core`) is modelled as an inductive type with
one constructor per storage tier (flag 0 = Internal, 1 = Short, 2 = Median,
3 = Long).  Machine integers are modelled as `Nat` with explicit truncation
(`% 2^w`) at every point where the C++ code stores into a fixed-width field
or casts a wider value down, so that the uint32 / bit-field wrap-around
behaviour of the source is preserved.  Buffers are modelled as `List Nat`
(one entry per byte of the data region, i.e. the bytes after the 8-byte
`capacity_and_size` header for Median/Long buffers); freshly `malloc`ed
memory is represented as zero-filled, and a store past the end of a buffer
is dropped (the physical heap overflow has no in-model representation).

All definitions are parametrised by the `NullTerminated` policy `NT`.
-/

namespace SmallStr

/-- Truncation to an unsigned `w`-bit value is `% 2^w`; this is `% 2^32`,
the conversion applied whenever the C++ code stores a value into a
`uint32_t` (`size_type`) location. -/
def u32 (n : Nat) : Nat := n % 4294967296

/-- Wrapping subtraction modulo `m`: the value of `a - b` in unsigned
arithmetic with modulus `m` (for `a < m`). -/
def msub (m a b : Nat) : Nat := (a + (m - b % m)) % m

/-- `uint32_t` wrapping subtraction, as performed by the C++ capacity /
idle-capacity arithmetic on header fields. -/
def sub32 (a b : Nat) : Nat := msub 4294967296 a b

/-- 64-bit wrapping subtraction (the Short-tier idle computation is done in
`unsigned long` before being narrowed to `size_type`). -/
def sub64 (a b : Nat) : Nat := msub 18446744073709551616 a b

/-- `AlignUpTo<8>(n) = (n + 7) & -8` computed in `uint64_t`; for all
arguments arising here (`n < 2^33`) this equals rounding up to the next
multiple of 8. -/
def AlignUpTo8 (n : Nat) : Nat := (n + 7) / 8 * 8

/-- The four storage strategies (`CoreType`), the 2-bit discriminant. -/
inductive CoreType where
  | Internal : CoreType
  | Short : CoreType
  | Median : CoreType
  | Long : CoreType
deriving DecidableEq, Repr

/-- `buffer_type_and_size<uint32_t>`: a chosen buffer size together with the
storage tier it belongs to. -/
structure BufferTypeAndSize where
  buffer_size : Nat
  core_type : CoreType
deriving DecidableEq, Repr

/-- `malloc_core::internal_buffer_size()`: 6 bytes with a terminator,
7 without. -/
def internal_buffer_size (NT : Bool) : Nat := if NT then 6 else 7

/-- `malloc_core::median_long_buffer_header_size()`: the 8-byte
`capacity_and_size` header plus one terminator byte when enabled. -/
def median_long_buffer_header_size (NT : Bool) : Nat := if NT then 9 else 8

/-- `malloc_core::max_short_buffer_size()`: 255 with a terminator,
256 without. -/
def max_short_buffer_size (NT : Bool) : Nat := if NT then 255 else 256

/-- `malloc_core::max_median_buffer_size()` = `2^14 - 1`. -/
def max_median_buffer_size : Nat := 16383

/-- `malloc_core::max_long_buffer_size()` =
`uint32 max - median_long_buffer_header_size()`. -/
def max_long_buffer_size (NT : Bool) : Nat :=
  4294967295 - median_long_buffer_header_size NT

/-- The number of terminator bytes the policy demands (1 or 0). -/
def nt1 (NT : Bool) : Nat := if NT then 1 else 0

/-- `small_string_buffer::calculate_new_buffer_size(size)` — the pure tier /
size selector.  The `u32` wraps model the `static_cast<size_type>` applied
to the 64-bit alignment result. -/
def calculate_new_buffer_size (NT : Bool) (size : Nat) : BufferTypeAndSize :=
  if size ≤ internal_buffer_size NT then
    ⟨internal_buffer_size NT, CoreType.Internal⟩
  else if size ≤ max_short_buffer_size NT then
    ⟨u32 (AlignUpTo8 (size + nt1 NT)), CoreType.Short⟩
  else if size ≤ max_median_buffer_size then
    ⟨u32 (AlignUpTo8 (size + median_long_buffer_header_size NT)), CoreType.Median⟩
  else
    ⟨u32 (AlignUpTo8 (size + median_long_buffer_header_size NT)), CoreType.Long⟩

/-- `static_cast<size_t>(size * growth)` for the growth factor
`Growth = 1.5F`.  `1.5f` is exactly representable; for `size ≤ 2^23` the
float product `size * 1.5f` is exact and its truncation to an integer is
`3 * size / 2`, which is this definition.  (Above `2^23` float rounding is
not modelled; theorems that rely on the growth factor carry a corresponding
bound.) -/
def growthScaled (size : Nat) : Nat := 3 * size / 2

/-- `calculate_new_buffer_size(size, growth)` =
`calculate_new_buffer_size(size * growth)` — the growth variant used by
`allocate_more` only. -/
def calculate_new_buffer_size_growth (NT : Bool) (size : Nat) : BufferTypeAndSize :=
  calculate_new_buffer_size NT (growthScaled size)

/-- The 8-byte tagged core (`malloc_core`), one constructor per tier.

* `internal data isz` — the 7-byte inline array plus the 6-bit
  `internal_size` field (flag 0).
* `short buf cap ssz` — the external buffer (no header), the 5-bit encoded
  capacity field and the 9-bit size field (flag 1).
* `median hcap hsz buf idle` — the `capacity_and_size` header fields
  (`uint32` each), the data region after the header, and the cached
  14-bit `idle_or_ignore` field (flag 2).
* `long hcap hsz buf` — as `median` but the 14-bit field is unused
  (flag 3). -/
inductive CoreState where
  | internal (data : List Nat) (isz : Nat) : CoreState
  | short (buf : List Nat) (cap : Nat) (ssz : Nat) : CoreState
  | median (hcap : Nat) (hsz : Nat) (buf : List Nat) (idle : Nat) : CoreState
  | long (hcap : Nat) (hsz : Nat) (buf : List Nat) : CoreState
deriving DecidableEq, Repr

namespace CoreState

/-- The 2-bit flag value (`get_core_type`). -/
def tier : CoreState → Nat
  | internal _ _ => 0
  | short _ _ _ => 1
  | median _ _ _ _ => 2
  | long _ _ _ => 3

/-- `malloc_core::is_external()`: flag ≠ 0. -/
def is_external (s : CoreState) : Bool := s.tier ≠ 0

/-- `malloc_core::size()`. -/
def size : CoreState → Nat
  | internal _ isz => isz
  | short _ _ ssz => ssz
  | median _ hsz _ _ => hsz
  | long _ hsz _ => hsz

/-- `malloc_core::capacity()`.  For Median/Long this is
`capacity_from_buffer_header() - 1 - sizeof(capacity_and_size)` (minus 1
only with the terminator policy), computed in `uint32`. -/
def capacity (NT : Bool) : CoreState → Nat
  | internal _ _ => internal_buffer_size NT
  | short _ cap _ => (cap + 1) * 8 - nt1 NT
  | median hcap _ _ _ =>
      if NT then sub32 (sub32 hcap 1) 8 else sub32 hcap 8
  | long hcap _ _ =>
      if NT then sub32 (sub32 hcap 1) 8 else sub32 hcap 8

/-- `malloc_core::get_idle_capacity_from_buffer_header()`:
`cap - size - 1 - sizeof(capacity_and_size)` in `uint32` (the `- 1` only
with the terminator policy). -/
def idle_from_header (NT : Bool) (hcap hsz : Nat) : Nat :=
  if NT then sub32 (sub32 (sub32 hcap hsz) 1) 8 else sub32 (sub32 hcap hsz) 8

/-- `malloc_core::idle_capacity()`.  Internal subtracts in `uint32`;
Short computes in `unsigned long` and narrows; Median returns the cached
14-bit field; Long recomputes from the header. -/
def idle_capacity (NT : Bool) : CoreState → Nat
  | internal _ isz => sub32 (internal_buffer_size NT) isz
  | short _ cap ssz =>
      if NT then u32 (sub64 (sub64 ((cap + 1) * 8) ssz) 1)
      else u32 (sub64 ((cap + 1) * 8) ssz)
  | median _ _ _ idle => idle
  | long hcap hsz _ => idle_from_header NT hcap hsz

/-- The data region (the bytes `data()` points at): the inline array for
Internal, the whole allocation for Short, the bytes after the 8-byte header
for Median/Long. -/
def dataList : CoreState → List Nat
  | internal d _ => d
  | short b _ _ => b
  | median _ _ b _ => b
  | long _ _ b => b

/-- Replace the data region, leaving every metadata field unchanged (the
shape of every plain byte store / `memcpy` / `memmove` through `data()`). -/
def mapData (f : List Nat → List Nat) : CoreState → CoreState
  | internal d i => internal (f d) i
  | short b c s => short (f b) c s
  | median hc hs b i => median hc hs (f b) i
  | long hc hs b => long hc hs (f b)

/-- The byte read `data()[i]` (out-of-range reads yield the junk value 0). -/
def byteAt (s : CoreState) (i : Nat) : Nat := s.dataList.getD i 0

/-- Reading the string back through `(data(), size())`. -/
def readBytes (s : CoreState) : List Nat := s.dataList.take s.size

/-- The total size in bytes of the external allocation backing `s`
(Short stores it as `(cap+1)*8`; Median/Long keep it in the header);
0 for Internal, which owns no allocation. -/
def allocSize : CoreState → Nat
  | internal _ _ => 0
  | short _ cap _ => (cap + 1) * 8
  | median hcap _ _ _ => hcap
  | long hcap _ _ => hcap

/-- `malloc_core::set_size_and_idle_and_set_term(new_size)`.  Bit-field
stores truncate (6-bit internal size, 9-bit short size, 14-bit idle cache,
`uint32` header size); with the terminator policy a zero byte is written at
the new size. -/
def set_size_and_idle_and_set_term (NT : Bool) (new_size : Nat) :
    CoreState → CoreState
  | internal d _ =>
      let isz := new_size % 64
      internal (if NT then d.set isz 0 else d) isz
  | short b cap _ =>
      short (if NT then b.set new_size 0 else b) cap (new_size % 512)
  | median hcap _ b _ =>
      let hsz := u32 new_size
      median hcap hsz (if NT then b.set new_size 0 else b)
        (idle_from_header NT hcap hsz % 16384)
  | long hcap _ b =>
      long hcap (u32 new_size) (if NT then b.set new_size 0 else b)

/-- `malloc_core::increase_size_and_idle_and_set_term(delta)`. -/
def increase_size_and_idle_and_set_term (NT : Bool) (delta : Nat) :
    CoreState → CoreState
  | internal d isz =>
      let isz2 := (isz + delta) % 64
      internal (if NT then d.set isz2 0 else d) isz2
  | short b cap ssz =>
      let ssz2 := (ssz + delta) % 512
      short (if NT then b.set ssz2 0 else b) cap ssz2
  | median hcap hsz b idle =>
      let hsz2 := u32 (hsz + delta)
      median hcap hsz2 (if NT then b.set hsz2 0 else b) (msub 16384 idle delta)
  | long hcap hsz b =>
      let hsz2 := u32 (hsz + delta)
      long hcap hsz2 (if NT then b.set hsz2 0 else b)

/-- `malloc_core::decrease_size_and_idle_and_set_term(delta)`. -/
def decrease_size_and_idle_and_set_term (NT : Bool) (delta : Nat) :
    CoreState → CoreState
  | internal d isz =>
      let isz2 := msub 64 isz delta
      internal (if NT then d.set isz2 0 else d) isz2
  | short b cap ssz =>
      let ssz2 := msub 512 ssz delta
      short (if NT then b.set ssz2 0 else b) cap ssz2
  | median hcap hsz b idle =>
      let hsz2 := sub32 hsz delta
      median hcap hsz2 (if NT then b.set hsz2 0 else b) ((idle + delta) % 16384)
  | long hcap hsz b =>
      let hsz2 := sub32 hsz delta
      long hcap hsz2 (if NT then b.set hsz2 0 else b)

end CoreState

/-- The all-zero 8-byte core: the empty Internal string (default
construction, and what a moved-from core is reset to). -/
def emptyCore : CoreState := CoreState.internal (List.replicate 7 0) 0

/-- `memcpy(dst + off, src, src.length)` on a byte list: overwrite
`src.length` bytes of `dst` starting at `off`.  The result always has
`dst`'s length; bytes that would land past the end of `dst` are dropped
(the in-model image of a heap overflow). -/
def memcpyAt (dst : List Nat) (off : Nat) (src : List Nat) : List Nat :=
  (dst.take off ++ src ++ dst.drop (off + src.length)).take dst.length

/-- Write `src` into the data region of `s` at offset `off`. -/
def writeAt (s : CoreState) (off : Nat) (src : List Nat) : CoreState :=
  s.mapData (fun d => memcpyAt d off src)

/-- `small_string_buffer::calculate_median_long_real_idle_capacity`:
`buffer_size - sizeof(capacity_and_size) - 1 - old_size` in `uint32`
(the `- 1` only with the terminator policy). -/
def calculate_median_long_real_idle_capacity (NT : Bool)
    (buffer_size old_size : Nat) : Nat :=
  if NT then sub32 (sub32 (sub32 buffer_size 8) 1) old_size
  else sub32 (sub32 buffer_size 8) old_size

/-- `small_string_buffer::allocate_new_external_buffer(type_and_size,
old_str_size)`: `malloc` a fresh buffer (modelled zero-filled), write the
`capacity_and_size` header for Median/Long, and build the new external core.
No terminator and no data bytes are written here — callers do that.
The Internal case is asserted unreachable in the source; the model returns
the zero core there. -/
def allocate_new_external_buffer (NT : Bool) (ts : BufferTypeAndSize)
    (old_str_size : Nat) : CoreState :=
  match ts.core_type with
  | CoreType.Internal => emptyCore
  | CoreType.Short =>
      CoreState.short (List.replicate ts.buffer_size 0)
        (sub32 (ts.buffer_size / 8) 1 % 32) (old_str_size % 512)
  | CoreType.Median =>
      CoreState.median (u32 ts.buffer_size) (u32 old_str_size)
        (List.replicate (ts.buffer_size - 8) 0)
        (calculate_median_long_real_idle_capacity NT ts.buffer_size old_str_size
          % 16384)
  | CoreType.Long =>
      CoreState.long (u32 ts.buffer_size) (u32 old_str_size)
        (List.replicate (ts.buffer_size - 8) 0)

/-- `small_string_buffer::initial_allocate(cap_and_type, size)`: first-time
allocation; writes tier-appropriate metadata and pre-zeroes the terminator
slot when the policy is enabled (for Median/Long the store
`buf[size + 8] = 0` lands at data-region index `size`). -/
def initial_allocate (NT : Bool) (ts : BufferTypeAndSize) (size : Nat) :
    CoreState :=
  match ts.core_type with
  | CoreType.Internal =>
      CoreState.internal
        (if NT then (List.replicate 7 0).set size 0 else List.replicate 7 0)
        (size % 64)
  | CoreType.Short =>
      CoreState.short
        (if NT then (List.replicate ts.buffer_size 0).set size 0
         else List.replicate ts.buffer_size 0)
        (sub32 (ts.buffer_size / 8) 1 % 32) (size % 512)
  | CoreType.Median =>
      CoreState.median (u32 ts.buffer_size) (u32 size)
        (if NT then (List.replicate (ts.buffer_size - 8) 0).set size 0
         else List.replicate (ts.buffer_size - 8) 0)
        (calculate_median_long_real_idle_capacity NT ts.buffer_size size % 16384)
  | CoreType.Long =>
      CoreState.long (u32 ts.buffer_size) (u32 size)
        (if NT then (List.replicate (ts.buffer_size - 8) 0).set size 0
         else List.replicate (ts.buffer_size - 8) 0)

/-- `small_string_buffer::allocate_more<Term>(new_append_size)`: a no-op
when the idle capacity already covers the request; otherwise allocates a
fresh buffer sized by the growth-scaled selector, copies the old content,
frees the old buffer and installs the new core.  `term` is the `Need0`
template argument (every call site in the string layer passes `No`). -/
def allocate_more (NT : Bool) (term : Bool) (new_append_size : Nat)
    (s : CoreState) : CoreState :=
  if new_append_size ≤ s.idle_capacity NT then s
  else
    let old_size := s.size
    let ncore := allocate_new_external_buffer NT
      (calculate_new_buffer_size_growth NT (old_size + new_append_size)) old_size
    let copied := writeAt ncore 0 (s.dataList.take old_size)
    if NT && term then copied.mapData (fun d => d.set old_size 0) else copied

/-- `small_string_buffer::buffer_reserve<Term, NeedCopy>(new_cap)`:
reallocate through the exact (non-growth) selector when `new_cap` exceeds
the current capacity, otherwise do nothing. -/
def buffer_reserve (NT : Bool) (term needCopy : Bool) (new_cap : Nat)
    (s : CoreState) : CoreState :=
  let old_cap := s.capacity NT
  let old_size := s.size
  if old_cap < new_cap then
    let ncore := allocate_new_external_buffer NT
      (calculate_new_buffer_size NT new_cap) old_size
    let c1 := if needCopy then writeAt ncore 0 (s.dataList.take old_size)
              else ncore
    if NT && term && needCopy then c1.mapData (fun d => d.set old_size 0)
    else c1
  else s

/-- Construction from `(const Char* s, size_t count)`:
`initial_allocate(calculate_new_buffer_size(count), count)` followed by
`memcpy(data(), s, count)`. -/
def construct (NT : Bool) (bs : List Nat) : CoreState :=
  writeAt (initial_allocate NT (calculate_new_buffer_size NT bs.length)
    bs.length) 0 bs

/-- `assign(const Char* s, count)`:
`buffer_reserve<Need0::No, false>(count)`, `memmove(buffer, s, count)`,
`set_size(count)`. -/
def assignOp (NT : Bool) (bs : List Nat) (s : CoreState) : CoreState :=
  let s1 := buffer_reserve NT false false bs.length s
  CoreState.set_size_and_idle_and_set_term NT bs.length (writeAt s1 0 bs)

/-- `append(const basic_small_string& other)`: no-op on an empty argument;
otherwise `allocate_more<Need0::No>(n)`, `memcpy(end(), other.data(), n)`,
`increase_size(n)`. -/
def appendOp (NT : Bool) (bs : List Nat) (s : CoreState) : CoreState :=
  if bs.isEmpty then s
  else
    let s1 := allocate_more NT false bs.length s
    CoreState.increase_size_and_idle_and_set_term NT bs.length
      (writeAt s1 s1.size bs)

/-- `push_back(c)`: `allocate_more<Need0::No>(1)`, `data()[size()] = c`,
`increase_size(1)`. -/
def pushBackOp (NT : Bool) (c : Nat) (s : CoreState) : CoreState :=
  let s1 := allocate_more NT false 1 s
  CoreState.increase_size_and_idle_and_set_term NT 1
    (s1.mapData (fun d => d.set s1.size c))

/-- `pop_back()`: `decrease_size(1)`. -/
def popBackOp (NT : Bool) (s : CoreState) : CoreState :=
  CoreState.decrease_size_and_idle_and_set_term NT 1 s

/-- `insert(index, count, ch)`: no-op for `count == 0`; throws (leaving the
string untouched) for `index > size()`; otherwise `allocate_more`, shift
the tail right by `count` with `memmove`, `memset` the gap with `ch`, and
`increase_size(count)`. -/
def insertChOp (NT : Bool) (index count ch : Nat) (s : CoreState) : CoreState :=
  if count = 0 then s
  else if s.size < index then s
  else
    let s1 := allocate_more NT false count s
    let old_size := s1.size
    let s2 :=
      if index < old_size then
        writeAt s1 (index + count) ((s1.dataList.drop index).take (old_size - index))
      else s1
    let s3 := writeAt s2 index (List.replicate count ch)
    CoreState.increase_size_and_idle_and_set_term NT count s3

/-- `insert(index, str, count)` with `bs` the inserted bytes: same shape as
the fill insert but the gap is filled by `memcpy` from `bs`. -/
def insertStrOp (NT : Bool) (index : Nat) (bs : List Nat) (s : CoreState) :
    CoreState :=
  if bs.length = 0 then s
  else if s.size < index then s
  else
    let s1 := allocate_more NT false bs.length s
    let old_size := s1.size
    let s2 :=
      if index < old_size then
        writeAt s1 (index + bs.length)
          ((s1.dataList.drop index).take (old_size - index))
      else s1
    let s3 := writeAt s2 index bs
    CoreState.increase_size_and_idle_and_set_term NT bs.length s3

/-- `erase(index, count)`: throws (untouched) for `index > size()`;
otherwise removes `min(count, size() - index)` bytes by shifting the tail
left and `set_size(new_size)`. -/
def eraseOp (NT : Bool) (index count : Nat) (s : CoreState) : CoreState :=
  let old_size := s.size
  if old_size < index then s
  else
    let real_count := min count (old_size - index)
    if real_count = 0 then s
    else
      let right_size := old_size - index - real_count
      let s1 :=
        if 0 < right_size then
          writeAt s index ((s.dataList.drop (index + real_count)).take right_size)
        else s
      CoreState.set_size_and_idle_and_set_term NT (old_size - real_count) s1

/-- `resize(count, ch)`: truncation is a bare `set_size`; growth reserves
(without growth factor) when `count > capacity()`, `memset`s the new tail
with `ch`, and `set_size(count)`.  `resize(count)` is this with `ch = 0`. -/
def resizeOp (NT : Bool) (count ch : Nat) (s : CoreState) : CoreState :=
  let old_size := s.size
  let cap := s.capacity NT
  if count ≤ old_size then CoreState.set_size_and_idle_and_set_term NT count s
  else
    let s1 := if cap < count then buffer_reserve NT false true count s else s
    CoreState.set_size_and_idle_and_set_term NT count
      (writeAt s1 old_size (List.replicate (count - old_size) ch))

/-- `reserve(new_cap)` = `buffer_reserve<Need0::Yes, true>(new_cap)`. -/
def reserveOp (NT : Bool) (new_cap : Nat) (s : CoreState) : CoreState :=
  buffer_reserve NT true true new_cap s

/-- `clear()` = `set_size(0)`. -/
def clearOp (NT : Bool) (s : CoreState) : CoreState :=
  CoreState.set_size_and_idle_and_set_term NT 0 s

/-- `shrink_to_fit()`: recompute the minimal buffer for the current size;
if the current capacity exceeds that buffer size, build the minimal string
(`initial_allocate` + `memcpy` of the content) and swap it in. -/
def shrinkToFitOp (NT : Bool) (s : CoreState) : CoreState :=
  let cap := s.capacity NT
  let sz := s.size
  let ts := calculate_new_buffer_size NT sz
  if ts.buffer_size < cap then
    writeAt (initial_allocate NT ts sz) 0 (s.dataList.take sz)
  else s

/-- Move (`malloc_core(malloc_core&& gone) : body{exchange(gone.body, 0)}`):
the destination takes over the whole 8-byte core (hence any external
buffer), the source is reset to the all-zero core.  Returns
`(destination, source-after-move)`. -/
def moveOp (s : CoreState) : CoreState × CoreState := (s, emptyCore)

/-- Numeric value of a `CoreType` (the 2-bit flag it is stored as). -/
def coreTypeNum : CoreType → Nat
  | CoreType.Internal => 0
  | CoreType.Short => 1
  | CoreType.Median => 2
  | CoreType.Long => 3

/-- `at(pos)` / `operator[](pos)` with the default `Safe = true`:
`if (pos >= size()) throw std::out_of_range(...); return *(buffer + pos)`.
The thrown exception is modelled as `Except.error`. -/
def atOp (s : CoreState) (pos : Nat) : Except Unit Nat :=
  if s.size ≤ pos then Except.error () else Except.ok (s.byteAt pos)

/-- `operator[](pos)` with `Safe = true` — textually the same guard and
read as `at`. -/
def bracketOp (s : CoreState) (pos : Nat) : Except Unit Nat :=
  if s.size ≤ pos then Except.error () else Except.ok (s.byteAt pos)

/-- Shape well-formedness of a core: buffer lengths match the recorded
capacities, packed fields are within their ranges, the size fits the
capacity, and (for Median) the cached idle field agrees with the header. -/
def Wf (NT : Bool) : CoreState → Prop
  | CoreState.internal d isz => d.length = 7 ∧ isz ≤ internal_buffer_size NT
  | CoreState.short b cap ssz =>
      b.length = (cap + 1) * 8 ∧ cap ≤ 31 ∧ ssz + nt1 NT ≤ (cap + 1) * 8
  | CoreState.median hcap hsz b idle =>
      b.length = hcap - 8 ∧ hsz + median_long_buffer_header_size NT ≤ hcap ∧
        256 < hcap ∧ hcap ≤ 16392 ∧
        idle = (hcap - median_long_buffer_header_size NT - hsz) % 16384
  | CoreState.long hcap hsz b =>
      b.length = hcap - 8 ∧ hsz + median_long_buffer_header_size NT ≤ hcap ∧
        256 < hcap ∧ hcap ≤ 4294967288

/-- The terminator invariant: with the policy enabled, the byte at
position `size()` is zero. -/
def TermOk (NT : Bool) (s : CoreState) : Prop :=
  NT = true → s.byteAt s.size = 0

/-- The full state invariant. -/
def Inv (NT : Bool) (s : CoreState) : Prop := Wf NT s ∧ TermOk NT s

/-- The largest request length whose selected buffer size certainly fits in
`uint32` after 8-alignment: `AlignUpTo8 (n + header) ≤ 2^32 - 8`. -/
def maxReq (NT : Bool) : Nat := 4294967288 - median_long_buffer_header_size NT

/-- The reachable states: every sequence of public operations starting from
a construction, with each request within the wrap-free range (`maxReq`) and
each growth-triggering operation keeping the growth-scaled request within
range.  `swap` exchanges the two 8-byte cores wholesale, so it maps a pair
of reachable states to a pair of reachable states and needs no constructor;
move likewise hands the old core to the destination (already reachable) and
resets the source to `emptyCore` (the `mv` constructor). -/
inductive Reached (NT : Bool) : CoreState → Prop where
  | init (bs : List Nat) (h : bs.length ≤ maxReq NT) :
      Reached NT (construct NT bs)
  | assign (s : CoreState) (bs : List Nat) (hs : Reached NT s)
      (h : bs.length ≤ maxReq NT) : Reached NT (assignOp NT bs s)
  | append (s : CoreState) (bs : List Nat) (hs : Reached NT s)
      (h : growthScaled (s.size + bs.length) ≤ maxReq NT) :
      Reached NT (appendOp NT bs s)
  | push_back (s : CoreState) (c : Nat) (hs : Reached NT s)
      (h : growthScaled (s.size + 1) ≤ maxReq NT) :
      Reached NT (pushBackOp NT c s)
  | pop_back (s : CoreState) (hs : Reached NT s) (h : 1 ≤ s.size) :
      Reached NT (popBackOp NT s)
  | insertCh (s : CoreState) (index count ch : Nat) (hs : Reached NT s)
      (h : growthScaled (s.size + count) ≤ maxReq NT) :
      Reached NT (insertChOp NT index count ch s)
  | insertStr (s : CoreState) (index : Nat) (bs : List Nat) (hs : Reached NT s)
      (h : growthScaled (s.size + bs.length) ≤ maxReq NT) :
      Reached NT (insertStrOp NT index bs s)
  | erase (s : CoreState) (index count : Nat) (hs : Reached NT s) :
      Reached NT (eraseOp NT index count s)
  | resize (s : CoreState) (count ch : Nat) (hs : Reached NT s)
      (h : count ≤ maxReq NT) : Reached NT (resizeOp NT count ch s)
  | reserve (s : CoreState) (n : Nat) (hs : Reached NT s)
      (h : n ≤ maxReq NT) : Reached NT (reserveOp NT n s)
  | shrink (s : CoreState) (hs : Reached NT s) :
      Reached NT (shrinkToFitOp NT s)
  | clear (s : CoreState) (hs : Reached NT s) : Reached NT (clearOp NT s)
  | mv (s : CoreState) (hs : Reached NT s) : Reached NT emptyCore

/-! ## Arithmetic helper lemmas -/

theorem msub_eq_of_le {m a b : Nat} (hb : b ≤ a) (ha : a < m) :
    msub m a b = a - b := by
  unfold msub
  rw [Nat.mod_eq_of_lt (show b < m by omega)]
  have h : a + (m - b) = m + (a - b) := by omega
  rw [h, Nat.add_mod_left, Nat.mod_eq_of_lt (by omega)]

theorem u32_eq_of_lt {n : Nat} (h : n < 4294967296) : u32 n = n :=
  Nat.mod_eq_of_lt h

theorem sub32_eq_of_le {a b : Nat} (hb : b ≤ a) (ha : a < 4294967296) :
    sub32 a b = a - b := msub_eq_of_le hb ha

theorem sub64_eq_of_le {a b : Nat} (hb : b ≤ a)
    (ha : a < 18446744073709551616) : sub64 a b = a - b := msub_eq_of_le hb ha

theorem le_AlignUpTo8 (n : Nat) : n ≤ AlignUpTo8 n := by
  unfold AlignUpTo8; omega

theorem AlignUpTo8_lt (n : Nat) : AlignUpTo8 n < n + 8 := by
  unfold AlignUpTo8; omega

theorem AlignUpTo8_mod (n : Nat) : AlignUpTo8 n % 8 = 0 := by
  unfold AlignUpTo8; omega

theorem AlignUpTo8_le {n m : Nat} (h : n ≤ m) (h8 : m % 8 = 0) :
    AlignUpTo8 n ≤ m := by
  unfold AlignUpTo8; omega

theorem growthScaled_ge (n : Nat) : n ≤ growthScaled n := by
  unfold growthScaled; omega

/-! ## List helper lemmas -/

theorem length_memcpyAt (dst : List Nat) (off : Nat) (src : List Nat) :
    (memcpyAt dst off src).length = dst.length := by
  simp only [memcpyAt, List.length_take, List.length_append, List.length_drop]
  omega

theorem memcpyAt_of_le {dst src : List Nat} {off : Nat}
    (h : off + src.length ≤ dst.length) :
    memcpyAt dst off src = dst.take off ++ src ++ dst.drop (off + src.length) := by
  unfold memcpyAt
  apply List.take_of_length_le
  simp only [List.length_append, List.length_take, List.length_drop]
  omega

theorem take_memcpyAt_zero {dst src : List Nat}
    (h : src.length ≤ dst.length) :
    (memcpyAt dst 0 src).take src.length = src := by
  rw [memcpyAt_of_le (by omega)]
  simp only [List.take_zero, List.nil_append, Nat.zero_add]
  exact List.take_left src _

theorem getD_set_self {l : List Nat} {i v : Nat} (h : i < l.length) :
    (l.set i v).getD i 0 = v := by
  simp [List.getD_eq_getElem?_getD, List.getElem?_set_self, h]

theorem take_set_of_le {l : List Nat} {i m v : Nat} (h : m ≤ i) :
    (l.set i v).take m = l.take m := by
  apply List.ext_getElem?
  intro j
  rw [List.getElem?_take, List.getElem?_take]
  by_cases hj : j < m
  · simp only [hj, if_true]
    rw [List.getElem?_set_ne (by omega)]
  · simp [hj]

theorem getD_memcpyAt_ge {dst src : List Nat} {off i : Nat}
    (h1 : off + src.length ≤ i) (h2 : off + src.length ≤ dst.length) :
    (memcpyAt dst off src).getD i 0 = dst.getD i 0 := by
  rw [memcpyAt_of_le h2]
  have hlen : (dst.take off ++ src).length = off + src.length := by
    simp only [List.length_append, List.length_take]; omega
  rw [List.getD_eq_getElem?_getD, List.getD_eq_getElem?_getD,
    List.getElem?_append_right (by rw [hlen]; exact h1), hlen,
    List.getElem?_drop]
  have hi : off + src.length + (i - (off + src.length)) = i := by omega
  rw [hi]

/-! ## Structural lemmas about `mapData` / `writeAt` -/

theorem size_mapData (f : List Nat → List Nat) (s : CoreState) :
    (s.mapData f).size = s.size := by
  cases s <;> rfl

theorem capacity_mapData (NT : Bool) (f : List Nat → List Nat)
    (s : CoreState) : (s.mapData f).capacity NT = s.capacity NT := by
  cases s <;> rfl

theorem tier_mapData (f : List Nat → List Nat) (s : CoreState) :
    (s.mapData f).tier = s.tier := by
  cases s <;> rfl

theorem idle_mapData (NT : Bool) (f : List Nat → List Nat) (s : CoreState) :
    (s.mapData f).idle_capacity NT = s.idle_capacity NT := by
  cases s <;> rfl

theorem allocSize_mapData (f : List Nat → List Nat) (s : CoreState) :
    (s.mapData f).allocSize = s.allocSize := by
  cases s <;> rfl

theorem dataList_mapData (f : List Nat → List Nat) (s : CoreState) :
    (s.mapData f).dataList = f s.dataList := by
  cases s <;> rfl

theorem wf_mapData {NT : Bool} {s : CoreState} {f : List Nat → List Nat}
    (hwf : Wf NT s) (hf : (f s.dataList).length = s.dataList.length) :
    Wf NT (s.mapData f) := by
  cases s with
  | internal d isz =>
      exact ⟨by simpa [CoreState.dataList] using hf.trans hwf.1, hwf.2⟩
  | short b cap ssz =>
      exact ⟨by simpa [CoreState.dataList] using hf.trans hwf.1, hwf.2.1, hwf.2.2⟩
  | median hcap hsz b idle =>
      exact ⟨by simpa [CoreState.dataList] using hf.trans hwf.1, hwf.2.1,
        hwf.2.2.1, hwf.2.2.2.1, hwf.2.2.2.2⟩
  | long hcap hsz b =>
      exact ⟨by simpa [CoreState.dataList] using hf.trans hwf.1, hwf.2.1,
        hwf.2.2.1, hwf.2.2.2⟩

theorem size_writeAt (s : CoreState) (off : Nat) (src : List Nat) :
    (writeAt s off src).size = s.size := size_mapData _ s

theorem capacity_writeAt (NT : Bool) (s : CoreState) (off : Nat)
    (src : List Nat) : (writeAt s off src).capacity NT = s.capacity NT :=
  capacity_mapData NT _ s

theorem tier_writeAt (s : CoreState) (off : Nat) (src : List Nat) :
    (writeAt s off src).tier = s.tier := tier_mapData _ s

theorem idle_writeAt (NT : Bool) (s : CoreState) (off : Nat)
    (src : List Nat) :
    (writeAt s off src).idle_capacity NT = s.idle_capacity NT :=
  idle_mapData NT _ s

theorem dataList_writeAt (s : CoreState) (off : Nat) (src : List Nat) :
    (writeAt s off src).dataList = memcpyAt s.dataList off src :=
  dataList_mapData _ s

theorem allocSize_writeAt (s : CoreState) (off : Nat) (src : List Nat) :
    (writeAt s off src).allocSize = s.allocSize :=
  allocSize_mapData _ s

theorem wf_writeAt {NT : Bool} {s : CoreState} (off : Nat) (src : List Nat)
    (hwf : Wf NT s) : Wf NT (writeAt s off src) :=
  wf_mapData hwf (length_memcpyAt _ _ _)

/-! ## Facts derived from the invariant -/

theorem wf_size_le_capacity {NT : Bool} {s : CoreState} (hwf : Wf NT s) :
    s.size ≤ s.capacity NT := by
  cases s with
  | internal d isz => exact hwf.2
  | short b cap ssz =>
      cases NT <;> simp [CoreState.size, CoreState.capacity, nt1, Wf] at * <;>
        omega
  | median hcap hsz b idle =>
      obtain ⟨-, h1, h2, h3, -⟩ := hwf
      cases NT <;>
        simp [CoreState.size, CoreState.capacity, sub32, msub,
          median_long_buffer_header_size] at * <;> omega
  | long hcap hsz b =>
      obtain ⟨-, h1, h2, h3⟩ := hwf
      cases NT <;>
        simp [CoreState.size, CoreState.capacity, sub32, msub,
          median_long_buffer_header_size] at * <;> omega

theorem wf_internal_le_capacity {NT : Bool} {s : CoreState} (hwf : Wf NT s) :
    internal_buffer_size NT ≤ s.capacity NT := by
  cases s with
  | internal d isz => exact le_rfl
  | short b cap ssz =>
      obtain ⟨-, h1, h2⟩ := hwf
      cases NT <;>
        simp [CoreState.capacity, internal_buffer_size, nt1] at * <;> omega
  | median hcap hsz b idle =>
      obtain ⟨-, h1, h2, h3, -⟩ := hwf
      cases NT <;>
        simp [CoreState.capacity, internal_buffer_size, sub32, msub,
          median_long_buffer_header_size] at * <;> omega
  | long hcap hsz b =>
      obtain ⟨-, h1, h2, h3⟩ := hwf
      cases NT <;>
        simp [CoreState.capacity, internal_buffer_size, sub32, msub,
          median_long_buffer_header_size] at * <;> omega

theorem wf_dataLen {NT : Bool} {s : CoreState} (hwf : Wf NT s) :
    s.dataList.length = s.capacity NT + nt1 NT := by
  cases s with
  | internal d isz =>
      cases NT <;>
        simp [CoreState.dataList, CoreState.capacity, internal_buffer_size,
          nt1, Wf] at * <;> omega
  | short b cap ssz =>
      cases NT <;>
        simp [CoreState.dataList, CoreState.capacity, nt1, Wf] at * <;> omega
  | median hcap hsz b idle =>
      obtain ⟨h0, h1, h2, h3, -⟩ := hwf
      cases NT <;>
        simp [CoreState.dataList, CoreState.capacity, sub32, msub, nt1,
          median_long_buffer_header_size] at * <;> omega
  | long hcap hsz b =>
      obtain ⟨h0, h1, h2, h3⟩ := hwf
      cases NT <;>
        simp [CoreState.dataList, CoreState.capacity, sub32, msub, nt1,
          median_long_buffer_header_size] at * <;> omega

theorem wf_capacity_lt {NT : Bool} {s : CoreState} (hwf : Wf NT s) :
    s.capacity NT < 4294967296 := by
  cases s with
  | internal d isz => cases NT <;> simp [CoreState.capacity, internal_buffer_size]
  | short b cap ssz =>
      obtain ⟨-, h1, -⟩ := hwf
      cases NT <;> simp [CoreState.capacity, nt1] <;> omega
  | median hcap hsz b idle =>
      obtain ⟨-, h1, h2, h3, -⟩ := hwf
      cases NT <;>
        simp [CoreState.capacity, sub32, msub,
          median_long_buffer_header_size] at * <;> omega
  | long hcap hsz b =>
      obtain ⟨-, h1, h2, h3⟩ := hwf
      cases NT <;>
        simp [CoreState.capacity, sub32, msub,
          median_long_buffer_header_size] at * <;> omega

theorem wf_idle_le {NT : Bool} {s : CoreState} (hwf : Wf NT s) :
    s.idle_capacity NT ≤ s.capacity NT - s.size := by
  cases s with
  | internal d isz =>
      have h := hwf.2
      cases NT <;>
        simp [CoreState.idle_capacity, CoreState.capacity, CoreState.size,
          sub32, msub, internal_buffer_size] at * <;> omega
  | short b cap ssz =>
      obtain ⟨-, h1, h2⟩ := hwf
      cases NT <;>
        simp [CoreState.idle_capacity, CoreState.capacity, CoreState.size,
          u32, sub64, msub, nt1] at * <;> omega
  | median hcap hsz b idle =>
      obtain ⟨-, h1, h2, h3, h4⟩ := hwf
      cases NT <;>
        simp [CoreState.idle_capacity, CoreState.capacity, CoreState.size,
          sub32, msub, median_long_buffer_header_size] at * <;> omega
  | long hcap hsz b =>
      obtain ⟨-, h1, h2, h3⟩ := hwf
      cases NT <;>
        simp [CoreState.idle_capacity, CoreState.capacity, CoreState.size,
          CoreState.idle_from_header, sub32, msub,
          median_long_buffer_header_size] at * <;> omega

theorem wf_idle_eq_true {s : CoreState} (hwf : Wf true s) :
    s.idle_capacity true = s.capacity true - s.size := by
  cases s with
  | internal d isz =>
      have h := hwf.2
      simp [CoreState.idle_capacity, CoreState.capacity, CoreState.size,
        sub32, msub, internal_buffer_size] at * <;> omega
  | short b cap ssz =>
      obtain ⟨-, h1, h2⟩ := hwf
      simp [CoreState.idle_capacity, CoreState.capacity, CoreState.size,
        u32, sub64, msub, nt1] at * <;> omega
  | median hcap hsz b idle =>
      obtain ⟨-, h1, h2, h3, h4⟩ := hwf
      simp [CoreState.idle_capacity, CoreState.capacity, CoreState.size,
        sub32, msub, median_long_buffer_header_size] at * <;> omega
  | long hcap hsz b =>
      obtain ⟨-, h1, h2, h3⟩ := hwf
      simp [CoreState.idle_capacity, CoreState.capacity, CoreState.size,
        CoreState.idle_from_header, sub32, msub,
        median_long_buffer_header_size] at * <;> omega

/-! ## Characterisation of the tier selector -/

theorem ibs_le_seven (NT : Bool) : internal_buffer_size NT ≤ 7 := by
  cases NT <;> simp [internal_buffer_size]

theorem calc_internal_eq {NT : Bool} {n : Nat}
    (h : n ≤ internal_buffer_size NT) :
    calculate_new_buffer_size NT n =
      ⟨internal_buffer_size NT, CoreType.Internal⟩ := by
  unfold calculate_new_buffer_size
  rw [if_pos h]

theorem calc_short_eq {NT : Bool} {n : Nat}
    (h1 : internal_buffer_size NT < n) (h2 : n ≤ max_short_buffer_size NT) :
    calculate_new_buffer_size NT n =
      ⟨AlignUpTo8 (n + nt1 NT), CoreType.Short⟩ := by
  have hb : n + nt1 NT ≤ 256 := by
    cases NT <;> simp [max_short_buffer_size, nt1] at * <;> omega
  unfold calculate_new_buffer_size
  rw [if_neg (by omega), if_pos h2, u32_eq_of_lt (by
    have := AlignUpTo8_le hb (by norm_num); omega)]

theorem calc_median_eq {NT : Bool} {n : Nat}
    (h1 : max_short_buffer_size NT < n) (h2 : n ≤ max_median_buffer_size) :
    calculate_new_buffer_size NT n =
      ⟨AlignUpTo8 (n + median_long_buffer_header_size NT), CoreType.Median⟩ := by
  have h1a : internal_buffer_size NT < n := by
    have := ibs_le_seven NT
    cases NT <;> simp [max_short_buffer_size] at * <;> omega
  have hb : n + median_long_buffer_header_size NT ≤ 16392 := by
    cases NT <;> simp [max_median_buffer_size,
      median_long_buffer_header_size] at * <;> omega
  unfold calculate_new_buffer_size
  rw [if_neg (by omega), if_neg (by omega), if_pos h2, u32_eq_of_lt (by
    have := AlignUpTo8_le hb (by norm_num); omega)]

theorem calc_long_eq {NT : Bool} {n : Nat} (h1 : max_median_buffer_size < n)
    (h2 : n ≤ maxReq NT) :
    calculate_new_buffer_size NT n =
      ⟨AlignUpTo8 (n + median_long_buffer_header_size NT), CoreType.Long⟩ := by
  have h1a : internal_buffer_size NT < n := by
    have := ibs_le_seven NT
    simp [max_median_buffer_size] at h1; omega
  have h1b : max_short_buffer_size NT < n := by
    cases NT <;> simp [max_short_buffer_size, max_median_buffer_size] at * <;>
      omega
  have hb : n + median_long_buffer_header_size NT ≤ 4294967288 := by
    cases NT <;> simp [maxReq, median_long_buffer_header_size] at * <;> omega
  unfold calculate_new_buffer_size
  rw [if_neg (by omega), if_neg (by omega), if_neg (by omega),
    u32_eq_of_lt (by have := AlignUpTo8_le hb (by norm_num); omega)]

/-! ## Exact forms of the wrapped capacity / idle expressions -/

theorem capacity_median_eq {NT : Bool} {hcap hsz idle : Nat} {b : List Nat}
    (h9 : median_long_buffer_header_size NT ≤ hcap)
    (hlt : hcap < 4294967296) :
    (CoreState.median hcap hsz b idle).capacity NT =
      hcap - median_long_buffer_header_size NT := by
  cases NT <;>
    simp [CoreState.capacity, sub32, msub, median_long_buffer_header_size]
      at * <;> omega

theorem capacity_long_eq {NT : Bool} {hcap hsz : Nat} {b : List Nat}
    (h9 : median_long_buffer_header_size NT ≤ hcap)
    (hlt : hcap < 4294967296) :
    (CoreState.long hcap hsz b).capacity NT =
      hcap - median_long_buffer_header_size NT := by
  cases NT <;>
    simp [CoreState.capacity, sub32, msub, median_long_buffer_header_size]
      at * <;> omega

theorem idle_from_header_eq {NT : Bool} {hcap hsz : Nat}
    (h : hsz + median_long_buffer_header_size NT ≤ hcap)
    (hlt : hcap < 4294967296) :
    CoreState.idle_from_header NT hcap hsz =
      hcap - median_long_buffer_header_size NT - hsz := by
  cases NT <;>
    simp [CoreState.idle_from_header, sub32, msub,
      median_long_buffer_header_size] at * <;> omega

/-! ## The size mutators -/

theorem set_size_capacity (NT : Bool) (n : Nat) (s : CoreState) :
    (CoreState.set_size_and_idle_and_set_term NT n s).capacity NT =
      s.capacity NT := by
  cases s <;> simp [CoreState.set_size_and_idle_and_set_term, CoreState.capacity]

theorem set_size_tier (NT : Bool) (n : Nat) (s : CoreState) :
    (CoreState.set_size_and_idle_and_set_term NT n s).tier = s.tier := by
  cases s <;> simp [CoreState.set_size_and_idle_and_set_term, CoreState.tier]

theorem set_size_size {NT : Bool} {s : CoreState} {n : Nat} (hwf : Wf NT s)
    (hn : n ≤ s.capacity NT) :
    (CoreState.set_size_and_idle_and_set_term NT n s).size = n := by
  cases s with
  | internal d isz =>
      have h7 := ibs_le_seven NT
      simp only [CoreState.capacity] at hn
      simp [CoreState.set_size_and_idle_and_set_term, CoreState.size]; omega
  | short b cap ssz =>
      obtain ⟨-, h1, -⟩ := hwf
      have : n ≤ 256 := by
        simp only [CoreState.capacity] at hn
        cases NT <;> simp [nt1] at hn ⊢ <;> omega
      simp [CoreState.set_size_and_idle_and_set_term, CoreState.size]; omega
  | median hcap hsz b idle =>
      obtain ⟨-, h1, h2, h3, -⟩ := hwf
      simp [CoreState.set_size_and_idle_and_set_term, CoreState.size, u32]
      rw [capacity_median_eq (by omega) (by omega)] at hn
      omega
  | long hcap hsz b =>
      obtain ⟨-, h1, h2, h3⟩ := hwf
      simp [CoreState.set_size_and_idle_and_set_term, CoreState.size, u32]
      rw [capacity_long_eq (by omega) (by omega)] at hn
      omega

theorem set_size_dataList {NT : Bool} {s : CoreState} {n : Nat} (hwf : Wf NT s)
    (hn : n ≤ s.capacity NT) :
    (CoreState.set_size_and_idle_and_set_term NT n s).dataList =
      if NT then s.dataList.set n 0 else s.dataList := by
  cases s with
  | internal d isz =>
      have h7 := ibs_le_seven NT
      simp only [CoreState.capacity] at hn
      have : n % 64 = n := by omega
      simp [CoreState.set_size_and_idle_and_set_term, CoreState.dataList, this]
  | short b cap ssz =>
      simp [CoreState.set_size_and_idle_and_set_term, CoreState.dataList]
  | median hcap hsz b idle =>
      simp [CoreState.set_size_and_idle_and_set_term, CoreState.dataList]
  | long hcap hsz b =>
      simp [CoreState.set_size_and_idle_and_set_term, CoreState.dataList]

theorem set_size_wf {NT : Bool} {s : CoreState} {n : Nat} (hwf : Wf NT s)
    (hn : n ≤ s.capacity NT) :
    Wf NT (CoreState.set_size_and_idle_and_set_term NT n s) := by
  cases s with
  | internal d isz =>
      have h7 := ibs_le_seven NT
      simp only [CoreState.capacity] at hn
      have hm : n % 64 = n := by omega
      cases NT <;>
        simp [CoreState.set_size_and_idle_and_set_term, Wf, hm, hwf.1] <;>
        omega
  | short b cap ssz =>
      obtain ⟨h0, h1, h2⟩ := hwf
      simp only [CoreState.capacity] at hn
      have hm : n % 512 = n := by cases NT <;> simp [nt1] at hn ⊢ <;> omega
      cases NT <;>
        simp [CoreState.set_size_and_idle_and_set_term, Wf, hm, h0, nt1] at * <;>
        omega
  | median hcap hsz b idle =>
      obtain ⟨h0, h1, h2, h3, h4⟩ := hwf
      rw [capacity_median_eq (by omega) (by omega)] at hn
      have h9 : 8 ≤ median_long_buffer_header_size NT ∧
          median_long_buffer_header_size NT ≤ 9 := by
        cases NT <;> simp [median_long_buffer_header_size]
      have hm : u32 n = n := u32_eq_of_lt (by omega)
      have hih : CoreState.idle_from_header NT hcap n =
          hcap - median_long_buffer_header_size NT - n :=
        idle_from_header_eq (by omega) (by omega)
      simp only [CoreState.set_size_and_idle_and_set_term, hm]
      refine ⟨?_, by omega, by omega, by omega, by rw [hih]⟩
      cases NT <;> simp [h0]
  | long hcap hsz b =>
      obtain ⟨h0, h1, h2, h3⟩ := hwf
      rw [capacity_long_eq (by omega) (by omega)] at hn
      have h9 : 8 ≤ median_long_buffer_header_size NT ∧
          median_long_buffer_header_size NT ≤ 9 := by
        cases NT <;> simp [median_long_buffer_header_size]
      have hm : u32 n = n := u32_eq_of_lt (by omega)
      simp only [CoreState.set_size_and_idle_and_set_term, hm]
      refine ⟨?_, by omega, by omega, by omega⟩
      cases NT <;> simp [h0]

theorem set_size_term {NT : Bool} {s : CoreState} {n : Nat} (hwf : Wf NT s)
    (hn : n ≤ s.capacity NT) :
    TermOk NT (CoreState.set_size_and_idle_and_set_term NT n s) := by
  intro hNT
  subst hNT
  have hlen : s.dataList.length = s.capacity true + 1 := by
    have := wf_dataLen hwf; simpa [nt1] using this
  have hsz := set_size_size hwf hn
  have hdl := set_size_dataList hwf hn
  simp only [if_pos rfl] at hdl
  unfold CoreState.byteAt
  rw [hsz, hdl]
  exact getD_set_self (by omega)

/-! ## `increase_size` / `decrease_size` -/

theorem increase_capacity (NT : Bool) (delta : Nat) (s : CoreState) :
    (CoreState.increase_size_and_idle_and_set_term NT delta s).capacity NT =
      s.capacity NT := by
  cases s <;>
    simp [CoreState.increase_size_and_idle_and_set_term, CoreState.capacity]

theorem increase_tier (NT : Bool) (delta : Nat) (s : CoreState) :
    (CoreState.increase_size_and_idle_and_set_term NT delta s).tier = s.tier := by
  cases s <;>
    simp [CoreState.increase_size_and_idle_and_set_term, CoreState.tier]

theorem increase_size_eq {NT : Bool} {s : CoreState} {delta : Nat}
    (hwf : Wf NT s) (hd : s.size + delta ≤ s.capacity NT) :
    (CoreState.increase_size_and_idle_and_set_term NT delta s).size =
      s.size + delta := by
  cases s with
  | internal d isz =>
      have h7 := ibs_le_seven NT
      simp only [CoreState.size, CoreState.capacity] at *
      simp [CoreState.increase_size_and_idle_and_set_term, CoreState.size]
      omega
  | short b cap ssz =>
      obtain ⟨-, h1, h2⟩ := hwf
      have hc : (CoreState.short b cap ssz).capacity NT ≤ 256 := by
        cases NT <;> simp [CoreState.capacity, nt1] <;> omega
      simp only [CoreState.size] at *
      simp [CoreState.increase_size_and_idle_and_set_term, CoreState.size]
      omega
  | median hcap hsz b idle =>
      obtain ⟨-, h1, h2, h3, h4⟩ := hwf
      rw [capacity_median_eq (by omega) (by omega)] at hd
      simp only [CoreState.size] at *
      simp [CoreState.increase_size_and_idle_and_set_term, CoreState.size, u32]
      omega
  | long hcap hsz b =>
      obtain ⟨-, h1, h2, h3⟩ := hwf
      rw [capacity_long_eq (by omega) (by omega)] at hd
      simp only [CoreState.size] at *
      simp [CoreState.increase_size_and_idle_and_set_term, CoreState.size, u32]
      omega

theorem increase_dataList {NT : Bool} {s : CoreState} {delta : Nat}
    (hwf : Wf NT s) (hd : s.size + delta ≤ s.capacity NT) :
    (CoreState.increase_size_and_idle_and_set_term NT delta s).dataList =
      if NT then s.dataList.set (s.size + delta) 0 else s.dataList := by
  have hsz := increase_size_eq hwf hd
  cases s <;>
    simp only [CoreState.increase_size_and_idle_and_set_term,
      CoreState.dataList, CoreState.size] at * <;>
    rw [hsz]

theorem increase_wf {NT : Bool} {s : CoreState} {delta : Nat}
    (hwf : Wf NT s) (hd : s.size + delta ≤ s.capacity NT) :
    Wf NT (CoreState.increase_size_and_idle_and_set_term NT delta s) := by
  cases s with
  | internal d isz =>
      obtain ⟨h0, h1⟩ := hwf
      have h7 := ibs_le_seven NT
      simp only [CoreState.size, CoreState.capacity] at *
      have hm : (isz + delta) % 64 = isz + delta := by omega
      simp only [CoreState.increase_size_and_idle_and_set_term, hm]
      refine ⟨?_, by omega⟩
      cases NT <;> simp [h0]
  | short b cap ssz =>
      obtain ⟨h0, h1, h2⟩ := hwf
      have hc : (CoreState.short b cap ssz).capacity NT ≤ 256 := by
        cases NT <;> simp [CoreState.capacity, nt1] <;> omega
      simp only [CoreState.size, CoreState.capacity] at *
      have hm : (ssz + delta) % 512 = ssz + delta := by
        cases NT <;> simp [nt1] at * <;> omega
      simp only [CoreState.increase_size_and_idle_and_set_term, hm]
      refine ⟨?_, h1, ?_⟩
      · cases NT <;> simp [h0]
      · cases NT <;> simp [nt1] at * <;> omega
  | median hcap hsz b idle =>
      obtain ⟨h0, h1, h2, h3, h4⟩ := hwf
      have h9 : 8 ≤ median_long_buffer_header_size NT ∧
          median_long_buffer_header_size NT ≤ 9 := by
        cases NT <;> simp [median_long_buffer_header_size]
      rw [capacity_median_eq (by omega) (by omega)] at hd
      simp only [CoreState.size] at *
      have hm : u32 (hsz + delta) = hsz + delta := u32_eq_of_lt (by omega)
      simp only [CoreState.increase_size_and_idle_and_set_term, hm]
      refine ⟨?_, by omega, by omega, by omega, ?_⟩
      · cases NT <;> simp [h0]
      · simp only [msub, h4]
        omega
  | long hcap hsz b =>
      obtain ⟨h0, h1, h2, h3⟩ := hwf
      have h9 : 8 ≤ median_long_buffer_header_size NT ∧
          median_long_buffer_header_size NT ≤ 9 := by
        cases NT <;> simp [median_long_buffer_header_size]
      rw [capacity_long_eq (by omega) (by omega)] at hd
      simp only [CoreState.size] at *
      have hm : u32 (hsz + delta) = hsz + delta := u32_eq_of_lt (by omega)
      simp only [CoreState.increase_size_and_idle_and_set_term, hm]
      refine ⟨?_, by omega, by omega, by omega⟩
      cases NT <;> simp [h0]

theorem increase_term {NT : Bool} {s : CoreState} {delta : Nat}
    (hwf : Wf NT s) (hd : s.size + delta ≤ s.capacity NT) :
    TermOk NT (CoreState.increase_size_and_idle_and_set_term NT delta s) := by
  intro hNT
  subst hNT
  have hlen : s.dataList.length = s.capacity true + 1 := by
    have := wf_dataLen hwf; simpa [nt1] using this
  have hsz := increase_size_eq hwf hd
  have hdl := increase_dataList hwf hd
  simp only [if_pos rfl] at hdl
  unfold CoreState.byteAt
  rw [hsz, hdl]
  exact getD_set_self (by omega)

theorem decrease_capacity (NT : Bool) (delta : Nat) (s : CoreState) :
    (CoreState.decrease_size_and_idle_and_set_term NT delta s).capacity NT =
      s.capacity NT := by
  cases s <;>
    simp [CoreState.decrease_size_and_idle_and_set_term, CoreState.capacity]

theorem decrease_tier (NT : Bool) (delta : Nat) (s : CoreState) :
    (CoreState.decrease_size_and_idle_and_set_term NT delta s).tier = s.tier := by
  cases s <;>
    simp [CoreState.decrease_size_and_idle_and_set_term, CoreState.tier]

theorem decrease_size_eq {NT : Bool} {s : CoreState} {delta : Nat}
    (hwf : Wf NT s) (hd : delta ≤ s.size) :
    (CoreState.decrease_size_and_idle_and_set_term NT delta s).size =
      s.size - delta := by
  have hcap := wf_size_le_capacity hwf
  have hlt := wf_capacity_lt hwf
  cases s with
  | internal d isz =>
      have h7 := ibs_le_seven NT
      simp only [CoreState.size, CoreState.capacity] at *
      have hm : msub 64 isz delta = isz - delta := msub_eq_of_le hd (by omega)
      simp [CoreState.decrease_size_and_idle_and_set_term, CoreState.size, hm]
  | short b cap ssz =>
      obtain ⟨-, h1, h2⟩ := hwf
      simp only [CoreState.size] at *
      have hm : msub 512 ssz delta = ssz - delta := by
        refine msub_eq_of_le hd (by cases NT <;> simp [nt1] at * <;> omega)
      simp [CoreState.decrease_size_and_idle_and_set_term, CoreState.size, hm]
  | median hcap hsz b idle =>
      obtain ⟨-, h1, h2, h3, h4⟩ := hwf
      simp only [CoreState.size] at *
      have hm : sub32 hsz delta = hsz - delta := msub_eq_of_le hd (by omega)
      simp [CoreState.decrease_size_and_idle_and_set_term, CoreState.size, hm]
  | long hcap hsz b =>
      obtain ⟨-, h1, h2, h3⟩ := hwf
      simp only [CoreState.size] at *
      have hm : sub32 hsz delta = hsz - delta := msub_eq_of_le hd (by omega)
      simp [CoreState.decrease_size_and_idle_and_set_term, CoreState.size, hm]

theorem decrease_dataList {NT : Bool} {s : CoreState} {delta : Nat}
    (hwf : Wf NT s) (hd : delta ≤ s.size) :
    (CoreState.decrease_size_and_idle_and_set_term NT delta s).dataList =
      if NT then s.dataList.set (s.size - delta) 0 else s.dataList := by
  have hsz := decrease_size_eq hwf hd
  cases s <;>
    simp only [CoreState.decrease_size_and_idle_and_set_term,
      CoreState.dataList, CoreState.size] at * <;>
    rw [hsz]

theorem decrease_wf {NT : Bool} {s : CoreState} {delta : Nat}
    (hwf : Wf NT s) (hd : delta ≤ s.size) :
    Wf NT (CoreState.decrease_size_and_idle_and_set_term NT delta s) := by
  have hcap := wf_size_le_capacity hwf
  have hlt := wf_capacity_lt hwf
  cases s with
  | internal d isz =>
      obtain ⟨h0, h1⟩ := hwf
      have h7 := ibs_le_seven NT
      simp only [CoreState.size, CoreState.capacity] at *
      have hm : msub 64 isz delta = isz - delta :=
        msub_eq_of_le hd (by omega)
      simp only [CoreState.decrease_size_and_idle_and_set_term, hm]
      refine ⟨?_, by omega⟩
      cases NT <;> simp [h0]
  | short b cap ssz =>
      obtain ⟨h0, h1, h2⟩ := hwf
      simp only [CoreState.size] at *
      have hm : msub 512 ssz delta = ssz - delta :=
        msub_eq_of_le hd (by omega)
      simp only [CoreState.decrease_size_and_idle_and_set_term, hm]
      refine ⟨?_, h1, by omega⟩
      cases NT <;> simp [h0]
  | median hcap hsz b idle =>
      obtain ⟨h0, h1, h2, h3, h4⟩ := hwf
      have h9 : 8 ≤ median_long_buffer_header_size NT ∧
          median_long_buffer_header_size NT ≤ 9 := by
        cases NT <;> simp [median_long_buffer_header_size]
      simp only [CoreState.size] at *
      have hm : sub32 hsz delta = hsz - delta :=
        msub_eq_of_le hd (by omega)
      simp only [CoreState.decrease_size_and_idle_and_set_term, hm]
      refine ⟨?_, by omega, by omega, by omega, ?_⟩
      · cases NT <;> simp [h0]
      · omega
  | long hcap hsz b =>
      obtain ⟨h0, h1, h2, h3⟩ := hwf
      simp only [CoreState.size] at *
      have hm : sub32 hsz delta = hsz - delta :=
        msub_eq_of_le hd (by omega)
      simp only [CoreState.decrease_size_and_idle_and_set_term, hm]
      exact ⟨by cases NT <;> simp [h0], by omega, h2, h3⟩

theorem decrease_term {NT : Bool} {s : CoreState} {delta : Nat}
    (hwf : Wf NT s) (hd : delta ≤ s.size) :
    TermOk NT (CoreState.decrease_size_and_idle_and_set_term NT delta s) := by
  intro hNT
  subst hNT
  have hlen : s.dataList.length = s.capacity true + 1 := by
    have := wf_dataLen hwf; simpa [nt1] using this
  have hsz := decrease_size_eq hwf hd
  have hdl := decrease_dataList hwf hd
  simp only [if_pos rfl] at hdl
  unfold CoreState.byteAt
  rw [hsz, hdl]
  have hcapsz := wf_size_le_capacity hwf
  exact getD_set_self (by omega)

/-! ## Fresh-buffer allocation -/

theorem calc_core_type_ne_internal {NT : Bool} {n : Nat}
    (h : internal_buffer_size NT < n) :
    (calculate_new_buffer_size NT n).core_type ≠ CoreType.Internal := by
  unfold calculate_new_buffer_size
  rw [if_neg (by omega)]
  split
  · simp
  · split <;> simp

theorem nt1_le_one (NT : Bool) : nt1 NT ≤ 1 := by cases NT <;> simp [nt1]

theorem hdr_bounds (NT : Bool) : 8 ≤ median_long_buffer_header_size NT ∧
    median_long_buffer_header_size NT ≤ 9 := by
  cases NT <;> simp [median_long_buffer_header_size]

theorem alloc_spec {NT : Bool} {n old : Nat}
    (h1 : internal_buffer_size NT < n) (h2 : n ≤ maxReq NT) (h3 : old ≤ n) :
    Wf NT (allocate_new_external_buffer NT (calculate_new_buffer_size NT n) old) ∧
    (allocate_new_external_buffer NT (calculate_new_buffer_size NT n) old).size
      = old ∧
    n ≤ (allocate_new_external_buffer NT
      (calculate_new_buffer_size NT n) old).capacity NT ∧
    (allocate_new_external_buffer NT (calculate_new_buffer_size NT n) old).allocSize
      = (calculate_new_buffer_size NT n).buffer_size ∧
    (allocate_new_external_buffer NT (calculate_new_buffer_size NT n) old).tier
      = coreTypeNum (calculate_new_buffer_size NT n).core_type ∧
    (allocate_new_external_buffer NT
      (calculate_new_buffer_size NT n) old).capacity NT ≤
      (calculate_new_buffer_size NT n).buffer_size := by
  have hnt := nt1_le_one NT
  have hhdr := hdr_bounds NT
  have h7 := ibs_le_seven NT
  have hmx : 255 ≤ max_short_buffer_size NT ∧ max_short_buffer_size NT ≤ 256 := by
    cases NT <;> simp [max_short_buffer_size]
  have hreq : 16384 ≤ maxReq NT := by
    cases NT <;> simp [maxReq, median_long_buffer_header_size]
  rcases le_or_lt n (max_short_buffer_size NT) with hs | hs
  · rw [calc_short_eq h1 hs]
    have hge : n + nt1 NT ≤ AlignUpTo8 (n + nt1 NT) := le_AlignUpTo8 _
    have hA8 : AlignUpTo8 (n + nt1 NT) % 8 = 0 := AlignUpTo8_mod _
    have hle256 : AlignUpTo8 (n + nt1 NT) ≤ 256 :=
      AlignUpTo8_le
        (by cases NT <;> simp [max_short_buffer_size, nt1] at hs ⊢ <;> omega)
        (by norm_num)
    have h8n : 8 ≤ n + nt1 NT := by
      cases NT <;> simp [internal_buffer_size, nt1] at h1 ⊢ <;> omega
    have hcap5 : sub32 (AlignUpTo8 (n + nt1 NT) / 8) 1 % 32 =
        AlignUpTo8 (n + nt1 NT) / 8 - 1 := by
      have hx : sub32 (AlignUpTo8 (n + nt1 NT) / 8) 1 =
          AlignUpTo8 (n + nt1 NT) / 8 - 1 :=
        msub_eq_of_le (by omega) (by omega)
      rw [hx]; omega
    have hold : old % 512 = old := by omega
    simp only [allocate_new_external_buffer, hcap5, hold]
    refine ⟨⟨?_, by omega, by omega⟩, rfl, ?_, ?_, rfl, ?_⟩
    · simp only [CoreState.dataList, List.length_replicate]; omega
    · simp only [CoreState.capacity]; omega
    · simp only [CoreState.allocSize]; omega
    · simp only [CoreState.capacity]
      have := nt1_le_one NT
      omega
  · rcases le_or_lt n max_median_buffer_size with hm | hm
    · rw [calc_median_eq hs hm]
      have hge : n + median_long_buffer_header_size NT ≤
          AlignUpTo8 (n + median_long_buffer_header_size NT) := le_AlignUpTo8 _
      have hA8 : AlignUpTo8 (n + median_long_buffer_header_size NT) % 8 = 0 :=
        AlignUpTo8_mod _
      have hle : AlignUpTo8 (n + median_long_buffer_header_size NT) ≤ 16392 :=
        AlignUpTo8_le (by simp [max_median_buffer_size] at hm; omega)
          (by norm_num)
      have hgt : 256 < AlignUpTo8 (n + median_long_buffer_header_size NT) := by
        omega
      have hu1 : u32 (AlignUpTo8 (n + median_long_buffer_header_size NT)) =
          AlignUpTo8 (n + median_long_buffer_header_size NT) :=
        u32_eq_of_lt (by omega)
      have hu2 : u32 old = old := u32_eq_of_lt (by omega)
      have hidle : calculate_median_long_real_idle_capacity NT
          (AlignUpTo8 (n + median_long_buffer_header_size NT)) old =
          AlignUpTo8 (n + median_long_buffer_header_size NT) -
            median_long_buffer_header_size NT - old := by
        cases NT <;>
          simp [calculate_median_long_real_idle_capacity, sub32, msub,
            median_long_buffer_header_size] at * <;> omega
      simp only [allocate_new_external_buffer, hu1, hu2, hidle]
      refine ⟨⟨?_, by omega, by omega, by omega, rfl⟩, rfl, ?_, ?_, rfl, ?_⟩
      · simp only [CoreState.dataList, List.length_replicate]
      · rw [capacity_median_eq (by omega) (by omega)]; omega
      · simp only [CoreState.allocSize]
      · rw [capacity_median_eq (by omega) (by omega)]; omega
    · rw [calc_long_eq hm h2]
      have hge : n + median_long_buffer_header_size NT ≤
          AlignUpTo8 (n + median_long_buffer_header_size NT) := le_AlignUpTo8 _
      have hA8 : AlignUpTo8 (n + median_long_buffer_header_size NT) % 8 = 0 :=
        AlignUpTo8_mod _
      have hle : AlignUpTo8 (n + median_long_buffer_header_size NT) ≤
          4294967288 :=
        AlignUpTo8_le (by simp [maxReq] at h2; omega) (by norm_num)
      have hgt : 256 < AlignUpTo8 (n + median_long_buffer_header_size NT) := by
        simp [max_median_buffer_size] at hm; omega
      have hu1 : u32 (AlignUpTo8 (n + median_long_buffer_header_size NT)) =
          AlignUpTo8 (n + median_long_buffer_header_size NT) :=
        u32_eq_of_lt (by omega)
      have hu2 : u32 old = old := u32_eq_of_lt (by omega)
      simp only [allocate_new_external_buffer, hu1, hu2]
      refine ⟨⟨?_, by omega, by omega, by omega⟩, rfl, ?_, ?_, rfl, ?_⟩
      · simp only [CoreState.dataList, List.length_replicate]
      · rw [capacity_long_eq (by omega) (by omega)]; omega
      · simp only [CoreState.allocSize]
      · rw [capacity_long_eq (by omega) (by omega)]; omega

/-! ## `initial_allocate` and construction -/

theorem initial_allocate_eq {NT : Bool} {ts : BufferTypeAndSize} {L : Nat}
    (h : ts.core_type ≠ CoreType.Internal) :
    initial_allocate NT ts L =
      (allocate_new_external_buffer NT ts L).mapData
        (fun d => if NT then d.set L 0 else d) := by
  obtain ⟨bs, ct⟩ := ts
  cases ct <;>
    simp_all [initial_allocate, allocate_new_external_buffer, CoreState.mapData]

theorem initial_allocate_spec {NT : Bool} {L : Nat} (h2 : L ≤ maxReq NT) :
    Wf NT (initial_allocate NT (calculate_new_buffer_size NT L) L) ∧
    (initial_allocate NT (calculate_new_buffer_size NT L) L).size = L ∧
    L ≤ (initial_allocate NT (calculate_new_buffer_size NT L) L).capacity NT ∧
    TermOk NT (initial_allocate NT (calculate_new_buffer_size NT L) L) := by
  rcases le_or_lt L (internal_buffer_size NT) with hint | hint
  · have h7 := ibs_le_seven NT
    rw [calc_internal_eq hint]
    have hm : L % 64 = L := by omega
    simp only [initial_allocate, hm]
    refine ⟨⟨?_, hint⟩, rfl, hint, ?_⟩
    · cases NT <;> simp
    · intro hNT
      subst hNT
      simp only [if_pos rfl]
      unfold CoreState.byteAt CoreState.dataList CoreState.size
      exact getD_set_self (by simp [internal_buffer_size] at hint ⊢; omega)
  · obtain ⟨hwf, hsz, hcap, -, -, -⟩ := alloc_spec hint h2 (Nat.le_refl L)
    rw [initial_allocate_eq (calc_core_type_ne_internal hint)]
    have hlen : ((if NT then
        (allocate_new_external_buffer NT (calculate_new_buffer_size NT L)
          L).dataList.set L 0
        else (allocate_new_external_buffer NT (calculate_new_buffer_size NT L)
          L).dataList)).length =
        (allocate_new_external_buffer NT (calculate_new_buffer_size NT L)
          L).dataList.length := by
      cases NT <;> simp
    refine ⟨wf_mapData hwf hlen, by rw [size_mapData]; exact hsz, ?_, ?_⟩
    · rw [capacity_mapData]; exact hcap
    · intro hNT
      subst hNT
      have hdl := wf_dataLen hwf
      unfold CoreState.byteAt
      rw [size_mapData, dataList_mapData, hsz]
      simp only [if_pos rfl]
      refine getD_set_self ?_
      simp [nt1] at hdl
      omega

theorem construct_spec {NT : Bool} {bs : List Nat}
    (h : bs.length ≤ maxReq NT) :
    Inv NT (construct NT bs) ∧ (construct NT bs).size = bs.length ∧
      (construct NT bs).readBytes = bs := by
  obtain ⟨hwf, hsz, hcap, hterm⟩ := initial_allocate_spec h
  have hdl := wf_dataLen hwf
  have hnt := nt1_le_one NT
  have hlen : bs.length ≤
      (initial_allocate NT (calculate_new_buffer_size NT bs.length)
        bs.length).dataList.length := by omega
  refine ⟨⟨wf_writeAt _ _ hwf, ?_⟩, ?_, ?_⟩
  · intro hNT
    unfold CoreState.byteAt construct
    rw [size_writeAt, dataList_writeAt, hsz,
      getD_memcpyAt_ge (by omega) (by omega)]
    have := hterm hNT
    unfold CoreState.byteAt at this
    rwa [hsz] at this
  · unfold construct
    rw [size_writeAt, hsz]
  · unfold CoreState.readBytes construct
    rw [size_writeAt, dataList_writeAt, hsz]
    exact take_memcpyAt_zero hlen

/-! ## `buffer_reserve` -/

theorem buffer_reserve_of_le {NT t c : Bool} {new_cap : Nat} {s : CoreState}
    (h : new_cap ≤ s.capacity NT) :
    buffer_reserve NT t c new_cap s = s := by
  simp only [buffer_reserve]
  rw [if_neg (by omega)]

theorem buffer_reserve_spec {NT t c : Bool} {new_cap : Nat} {s : CoreState}
    (hwf : Wf NT s) (h2 : new_cap ≤ maxReq NT)
    (hgt : s.capacity NT < new_cap) :
    Wf NT (buffer_reserve NT t c new_cap s) ∧
    (buffer_reserve NT t c new_cap s).size = s.size ∧
    new_cap ≤ (buffer_reserve NT t c new_cap s).capacity NT ∧
    (buffer_reserve NT t c new_cap s).allocSize =
      (calculate_new_buffer_size NT new_cap).buffer_size ∧
    (buffer_reserve NT t c new_cap s).tier =
      coreTypeNum (calculate_new_buffer_size NT new_cap).core_type ∧
    (c = true → (buffer_reserve NT t c new_cap s).readBytes = s.readBytes) ∧
    (NT = true → t = true → c = true →
      TermOk NT (buffer_reserve NT t c new_cap s)) := by
  have h1 : internal_buffer_size NT < new_cap :=
    lt_of_le_of_lt (wf_internal_le_capacity hwf) hgt
  have h3 : s.size ≤ new_cap := le_of_lt
    (lt_of_le_of_lt (wf_size_le_capacity hwf) hgt)
  obtain ⟨hawf, hasz, hacap, haalloc, hatier, hacaple⟩ :=
    alloc_spec h1 h2 h3
  have hnt := nt1_le_one NT
  have hsdl : s.size ≤ s.dataList.length := by
    have := wf_dataLen hwf
    have := wf_size_le_capacity hwf
    omega
  have hadl : s.size ≤ (allocate_new_external_buffer NT
      (calculate_new_buffer_size NT new_cap) s.size).dataList.length := by
    have := wf_dataLen hawf
    omega
  cases c with
  | false =>
      have hr : buffer_reserve NT t false new_cap s =
          allocate_new_external_buffer NT
            (calculate_new_buffer_size NT new_cap) s.size := by
        simp only [buffer_reserve]
        rw [if_pos hgt]
        simp
      rw [hr]
      exact ⟨hawf, hasz, hacap, haalloc, hatier, by simp, by simp⟩
  | true =>
      have hsrc : (s.dataList.take s.size).length = s.size := by
        rw [List.length_take]
        omega
      have hrb0 : (writeAt (allocate_new_external_buffer NT
          (calculate_new_buffer_size NT new_cap) s.size) 0
            (s.dataList.take s.size)).readBytes = s.readBytes := by
        unfold CoreState.readBytes
        rw [size_writeAt, dataList_writeAt, hasz]
        have := @take_memcpyAt_zero ((allocate_new_external_buffer NT
          (calculate_new_buffer_size NT new_cap) s.size).dataList)
          (s.dataList.take s.size) (by omega)
        rw [hsrc] at this
        rw [this]
      by_cases hb : (NT && t) = true
      · have hr : buffer_reserve NT t true new_cap s =
            (writeAt (allocate_new_external_buffer NT
              (calculate_new_buffer_size NT new_cap) s.size) 0
              (s.dataList.take s.size)).mapData
              (fun d => d.set s.size 0) := by
          simp only [buffer_reserve]
          rw [if_pos hgt]
          simp [hb]
        rw [hr]
        have hw0 := wf_writeAt 0 (s.dataList.take s.size) hawf
        refine ⟨wf_mapData hw0 (by simp), ?_, ?_, ?_, ?_, ?_, ?_⟩
        · rw [size_mapData, size_writeAt]; exact hasz
        · rw [capacity_mapData, capacity_writeAt]; exact hacap
        · rw [allocSize_mapData, allocSize_writeAt]; exact haalloc
        · rw [tier_mapData, tier_writeAt]; exact hatier
        · rintro -
          unfold CoreState.readBytes
          rw [size_mapData, dataList_mapData, size_writeAt, hasz,
            take_set_of_le (Nat.le_refl _)]
          unfold CoreState.readBytes at hrb0
          rw [size_writeAt, hasz] at hrb0
          exact hrb0
        · intro hNT ht hc
          subst hNT
          unfold TermOk CoreState.byteAt
          rintro -
          rw [size_mapData, dataList_mapData, size_writeAt, hasz]
          refine getD_set_self ?_
          rw [dataList_writeAt, length_memcpyAt]
          have hx1 := wf_dataLen hawf
          have hx2 := wf_size_le_capacity hwf
          omega
      · have hr : buffer_reserve NT t true new_cap s =
            writeAt (allocate_new_external_buffer NT
              (calculate_new_buffer_size NT new_cap) s.size) 0
              (s.dataList.take s.size) := by
          simp only [buffer_reserve]
          rw [if_pos hgt]
          simp [hb]
        rw [hr]
        refine ⟨wf_writeAt _ _ hawf, ?_, ?_, ?_, ?_, fun _ => hrb0, ?_⟩
        · rw [size_writeAt]; exact hasz
        · rw [capacity_writeAt]; exact hacap
        · rw [allocSize_writeAt]; exact haalloc
        · rw [tier_writeAt]; exact hatier
        · rintro hNT ht -
          exfalso
          rw [hNT, ht] at hb
          simp at hb

/-! ## `allocate_more` -/

theorem allocate_more_of_le {NT t : Bool} {extra : Nat} {s : CoreState}
    (h : extra ≤ s.idle_capacity NT) :
    allocate_more NT t extra s = s := by
  simp only [allocate_more]
  rw [if_pos h]

theorem allocate_more_post {NT t : Bool} {extra : Nat} {s : CoreState}
    (hwf : Wf NT s) (hg : growthScaled (s.size + extra) ≤ maxReq NT) :
    Wf NT (allocate_more NT t extra s) ∧
    (allocate_more NT t extra s).size + extra ≤
      (allocate_more NT t extra s).capacity NT := by
  by_cases hid : extra ≤ s.idle_capacity NT
  · rw [allocate_more_of_le hid]
    have := wf_idle_le hwf
    have := wf_size_le_capacity hwf
    exact ⟨hwf, by omega⟩
  · have hm := growthScaled_ge (s.size + extra)
    have hr : allocate_more NT t extra s =
        (let ncore := allocate_new_external_buffer NT
          (calculate_new_buffer_size_growth NT (s.size + extra)) s.size
         let copied := writeAt ncore 0 (s.dataList.take s.size)
         if NT && t then copied.mapData (fun d => d.set s.size 0)
         else copied) := by
      simp only [allocate_more]
      rw [if_neg hid]
    rcases le_or_lt (growthScaled (s.size + extra)) (internal_buffer_size NT)
      with hint | hint
    · have hcalc : calculate_new_buffer_size_growth NT (s.size + extra) =
          ⟨internal_buffer_size NT, CoreType.Internal⟩ := by
        unfold calculate_new_buffer_size_growth
        exact calc_internal_eq hint
      rw [hr, hcalc]
      simp only [allocate_new_external_buffer]
      have hwfe : Wf NT emptyCore := ⟨by simp [emptyCore, CoreState.dataList],
        by simp [emptyCore, CoreState.size]⟩
      have hwfw := wf_writeAt 0 (s.dataList.take s.size) hwfe
      have hps : (writeAt emptyCore 0 (s.dataList.take s.size)).size = 0 := by
        rw [size_writeAt]; rfl
      have hpc : (writeAt emptyCore 0 (s.dataList.take s.size)).capacity NT =
          internal_buffer_size NT := by
        rw [capacity_writeAt]; rfl
      by_cases hb : (NT && t) = true
      · simp only [hb, if_true]
        refine ⟨wf_mapData hwfw (by simp), ?_⟩
        rw [size_mapData, capacity_mapData, hps, hpc]
        omega
      · simp only [hb, if_false, Bool.not_eq_true] at *
        simp only [hb, Bool.false_eq_true, if_false]
        refine ⟨hwfw, ?_⟩
        rw [hps, hpc]
        omega
    · obtain ⟨hawf, hasz, hacap, -, -, -⟩ :=
        @alloc_spec NT (growthScaled (s.size + extra)) s.size hint hg
          (by omega)
      have hwfw := wf_writeAt 0 (s.dataList.take s.size) hawf
      rw [hr]
      unfold calculate_new_buffer_size_growth
      by_cases hb : (NT && t) = true
      · simp only [hb, if_true]
        refine ⟨wf_mapData hwfw (by simp), ?_⟩
        rw [size_mapData, capacity_mapData, size_writeAt, capacity_writeAt,
          hasz]
        omega
      · simp only [hb, Bool.false_eq_true, if_false]
        refine ⟨hwfw, ?_⟩
        rw [size_writeAt, capacity_writeAt, hasz]
        omega

/-! ## Invariant preservation of the public operations -/

theorem wf_size_le_maxReq {NT : Bool} {s : CoreState} (hwf : Wf NT s) :
    s.size ≤ maxReq NT := by
  have hq : 4294967279 ≤ maxReq NT := by
    cases NT <;> simp [maxReq, median_long_buffer_header_size]
  cases s with
  | internal d isz =>
      have := ibs_le_seven NT
      have h2 := hwf.2
      simp only [CoreState.size]
      omega
  | short b cap ssz =>
      obtain ⟨-, hc, hn⟩ := hwf
      simp only [CoreState.size]
      omega
  | median hcap hsz b idle =>
      obtain ⟨-, h1, h2, h3, -⟩ := hwf
      simp only [CoreState.size]
      omega
  | long hcap hsz b =>
      obtain ⟨-, h1, h2, h3⟩ := hwf
      simp only [CoreState.size, maxReq]
      have := hdr_bounds NT
      omega

theorem inv_emptyCore (NT : Bool) : Inv NT emptyCore := by
  refine ⟨⟨by simp [emptyCore, CoreState.dataList], Nat.zero_le _⟩,
    fun _ => by decide⟩

theorem inv_construct {NT : Bool} {bs : List Nat} (h : bs.length ≤ maxReq NT) :
    Inv NT (construct NT bs) := (construct_spec h).1

theorem inv_assign {NT : Bool} {bs : List Nat} {s : CoreState}
    (hinv : Inv NT s) (h : bs.length ≤ maxReq NT) :
    Inv NT (assignOp NT bs s) := by
  obtain ⟨hwf, -⟩ := hinv
  have hs1 : Wf NT (buffer_reserve NT false false bs.length s) ∧
      bs.length ≤ (buffer_reserve NT false false bs.length s).capacity NT := by
    rcases le_or_lt bs.length (s.capacity NT) with hle | hgt
    · rw [buffer_reserve_of_le hle]
      exact ⟨hwf, hle⟩
    · obtain ⟨w, -, c, -, -, -, -⟩ := buffer_reserve_spec
        (t := false) (c := false) hwf h hgt
      exact ⟨w, c⟩
  obtain ⟨hw1, hc1⟩ := hs1
  have hw2 := wf_writeAt 0 bs hw1
  have hc2 : bs.length ≤
      (writeAt (buffer_reserve NT false false bs.length s) 0 bs).capacity NT := by
    rw [capacity_writeAt]; exact hc1
  exact ⟨set_size_wf hw2 hc2, set_size_term hw2 hc2⟩

theorem inv_append {NT : Bool} {bs : List Nat} {s : CoreState}
    (hinv : Inv NT s) (h : growthScaled (s.size + bs.length) ≤ maxReq NT) :
    Inv NT (appendOp NT bs s) := by
  obtain ⟨hwf, hterm⟩ := hinv
  unfold appendOp
  by_cases he : bs.isEmpty
  · rw [if_pos he]; exact ⟨hwf, hterm⟩
  · rw [if_neg he]
    obtain ⟨hw1, hc1⟩ := allocate_more_post (t := false) hwf h
    have hw2 := wf_writeAt
      (allocate_more NT false bs.length s).size bs hw1
    have hc2 : (writeAt (allocate_more NT false bs.length s)
        (allocate_more NT false bs.length s).size bs).size + bs.length ≤
        (writeAt (allocate_more NT false bs.length s)
          (allocate_more NT false bs.length s).size bs).capacity NT := by
      rw [size_writeAt, capacity_writeAt]; exact hc1
    exact ⟨increase_wf hw2 hc2, increase_term hw2 hc2⟩

theorem inv_pushBack {NT : Bool} {c : Nat} {s : CoreState}
    (hinv : Inv NT s) (h : growthScaled (s.size + 1) ≤ maxReq NT) :
    Inv NT (pushBackOp NT c s) := by
  obtain ⟨hwf, -⟩ := hinv
  unfold pushBackOp
  obtain ⟨hw1, hc1⟩ := allocate_more_post (t := false) hwf h
  have hw2 : Wf NT ((allocate_more NT false 1 s).mapData
      (fun d => d.set (allocate_more NT false 1 s).size c)) :=
    wf_mapData hw1 (by simp)
  have hc2 : ((allocate_more NT false 1 s).mapData
      (fun d => d.set (allocate_more NT false 1 s).size c)).size + 1 ≤
      ((allocate_more NT false 1 s).mapData
        (fun d => d.set (allocate_more NT false 1 s).size c)).capacity NT := by
    rw [size_mapData, capacity_mapData]; exact hc1
  exact ⟨increase_wf hw2 hc2, increase_term hw2 hc2⟩

theorem inv_popBack {NT : Bool} {s : CoreState} (hinv : Inv NT s)
    (h : 1 ≤ s.size) : Inv NT (popBackOp NT s) :=
  ⟨decrease_wf hinv.1 h, decrease_term hinv.1 h⟩

theorem inv_insertCh {NT : Bool} {index count ch : Nat} {s : CoreState}
    (hinv : Inv NT s) (h : growthScaled (s.size + count) ≤ maxReq NT) :
    Inv NT (insertChOp NT index count ch s) := by
  obtain ⟨hwf, hterm⟩ := hinv
  unfold insertChOp
  by_cases h0 : count = 0
  · rw [if_pos h0]; exact ⟨hwf, hterm⟩
  rw [if_neg h0]
  by_cases hix : s.size < index
  · rw [if_pos hix]; exact ⟨hwf, hterm⟩
  rw [if_neg hix]
  obtain ⟨hw1, hc1⟩ := allocate_more_post (t := false) hwf h
  set s1 := allocate_more NT false count s with hs1
  set s2 := (if index < s1.size then
      writeAt s1 (index + count) ((s1.dataList.drop index).take (s1.size - index))
    else s1) with hs2
  have hw2 : Wf NT s2 := by
    rw [hs2]; split
    · exact wf_writeAt _ _ hw1
    · exact hw1
  have hsz2 : s2.size = s1.size := by
    rw [hs2]; split
    · rw [size_writeAt]
    · rfl
  have hcap2 : s2.capacity NT = s1.capacity NT := by
    rw [hs2]; split
    · rw [capacity_writeAt]
    · rfl
  have hw3 := wf_writeAt index (List.replicate count ch) hw2
  have hc3 : (writeAt s2 index (List.replicate count ch)).size + count ≤
      (writeAt s2 index (List.replicate count ch)).capacity NT := by
    rw [size_writeAt, capacity_writeAt, hsz2, hcap2]; exact hc1
  exact ⟨increase_wf hw3 hc3, increase_term hw3 hc3⟩

theorem inv_insertStr {NT : Bool} {index : Nat} {bs : List Nat} {s : CoreState}
    (hinv : Inv NT s) (h : growthScaled (s.size + bs.length) ≤ maxReq NT) :
    Inv NT (insertStrOp NT index bs s) := by
  obtain ⟨hwf, hterm⟩ := hinv
  unfold insertStrOp
  by_cases h0 : bs.length = 0
  · rw [if_pos h0]; exact ⟨hwf, hterm⟩
  rw [if_neg h0]
  by_cases hix : s.size < index
  · rw [if_pos hix]; exact ⟨hwf, hterm⟩
  rw [if_neg hix]
  obtain ⟨hw1, hc1⟩ := allocate_more_post (t := false) hwf h
  set s1 := allocate_more NT false bs.length s with hs1
  set s2 := (if index < s1.size then
      writeAt s1 (index + bs.length)
        ((s1.dataList.drop index).take (s1.size - index))
    else s1) with hs2
  have hw2 : Wf NT s2 := by
    rw [hs2]; split
    · exact wf_writeAt _ _ hw1
    · exact hw1
  have hsz2 : s2.size = s1.size := by
    rw [hs2]; split
    · rw [size_writeAt]
    · rfl
  have hcap2 : s2.capacity NT = s1.capacity NT := by
    rw [hs2]; split
    · rw [capacity_writeAt]
    · rfl
  have hw3 := wf_writeAt index bs hw2
  have hc3 : (writeAt s2 index bs).size + bs.length ≤
      (writeAt s2 index bs).capacity NT := by
    rw [size_writeAt, capacity_writeAt, hsz2, hcap2]; exact hc1
  exact ⟨increase_wf hw3 hc3, increase_term hw3 hc3⟩

theorem inv_erase {NT : Bool} {index count : Nat} {s : CoreState}
    (hinv : Inv NT s) : Inv NT (eraseOp NT index count s) := by
  obtain ⟨hwf, hterm⟩ := hinv
  unfold eraseOp
  by_cases hix : s.size < index
  · rw [if_pos hix]; exact ⟨hwf, hterm⟩
  rw [if_neg hix]
  by_cases h0 : min count (s.size - index) = 0
  · rw [if_pos h0]; exact ⟨hwf, hterm⟩
  rw [if_neg h0]
  set rc := min count (s.size - index) with hrc
  set s1 := (if 0 < s.size - index - rc then
      writeAt s index ((s.dataList.drop (index + rc)).take (s.size - index - rc))
    else s) with hs1
  have hw1 : Wf NT s1 := by
    rw [hs1]; split
    · exact wf_writeAt _ _ hwf
    · exact hwf
  have hcap1 : s1.capacity NT = s.capacity NT := by
    rw [hs1]; split
    · rw [capacity_writeAt]
    · rfl
  have hc1 : s.size - rc ≤ s1.capacity NT := by
    rw [hcap1]
    have := wf_size_le_capacity hwf
    omega
  exact ⟨set_size_wf hw1 hc1, set_size_term hw1 hc1⟩

theorem inv_resize {NT : Bool} {count ch : Nat} {s : CoreState}
    (hinv : Inv NT s) (h : count ≤ maxReq NT) :
    Inv NT (resizeOp NT count ch s) := by
  obtain ⟨hwf, hterm⟩ := hinv
  unfold resizeOp
  by_cases hle : count ≤ s.size
  · rw [if_pos hle]
    have hc : count ≤ s.capacity NT :=
      le_trans hle (wf_size_le_capacity hwf)
    exact ⟨set_size_wf hwf hc, set_size_term hwf hc⟩
  rw [if_neg hle]
  have hs1 : Wf NT (if s.capacity NT < count then
        buffer_reserve NT false true count s else s) ∧
      count ≤ (if s.capacity NT < count then
        buffer_reserve NT false true count s else s).capacity NT := by
    split
    · next hgt =>
        obtain ⟨w, -, c, -, -, -, -⟩ := buffer_reserve_spec
          (t := false) (c := true) hwf h hgt
        exact ⟨w, c⟩
    · next hngt => exact ⟨hwf, by omega⟩
  obtain ⟨hw1, hc1⟩ := hs1
  have hw2 := wf_writeAt s.size
    (List.replicate (count - s.size) ch) hw1
  have hc2 : count ≤ (writeAt (if s.capacity NT < count then
      buffer_reserve NT false true count s else s) s.size
      (List.replicate (count - s.size) ch)).capacity NT := by
    rw [capacity_writeAt]; exact hc1
  exact ⟨set_size_wf hw2 hc2, set_size_term hw2 hc2⟩

theorem inv_reserve {NT : Bool} {n : Nat} {s : CoreState} (hinv : Inv NT s)
    (h : n ≤ maxReq NT) : Inv NT (reserveOp NT n s) := by
  obtain ⟨hwf, hterm⟩ := hinv
  unfold reserveOp
  rcases le_or_lt n (s.capacity NT) with hle | hgt
  · rw [buffer_reserve_of_le hle]; exact ⟨hwf, hterm⟩
  · obtain ⟨w, -, -, -, -, -, tm⟩ := buffer_reserve_spec
      (t := true) (c := true) hwf h hgt
    exact ⟨w, fun hNT => tm hNT rfl rfl hNT⟩

theorem inv_shrink {NT : Bool} {s : CoreState} (hinv : Inv NT s) :
    Inv NT (shrinkToFitOp NT s) := by
  obtain ⟨hwf, hterm⟩ := hinv
  simp only [shrinkToFitOp]
  split
  · next hlt =>
      have hmax : s.size ≤ maxReq NT := wf_size_le_maxReq hwf
      obtain ⟨hw1, hsz1, hcap1, hterm1⟩ := initial_allocate_spec
        hmax
      refine ⟨wf_writeAt _ _ hw1, ?_⟩
      intro hNT
      unfold CoreState.byteAt
      rw [size_writeAt, dataList_writeAt, hsz1]
      have hsle : s.size ≤ s.dataList.length := by
        have := wf_dataLen hwf
        have := wf_size_le_capacity hwf
        omega
      have hlt2 : (s.dataList.take s.size).length = s.size := by
        rw [List.length_take]; omega
      have hdl1 := wf_dataLen hw1
      rw [getD_memcpyAt_ge (by omega) (by omega)]
      have := hterm1 hNT
      unfold CoreState.byteAt at this
      rwa [hsz1] at this
  · exact ⟨hwf, hterm⟩

theorem inv_clear {NT : Bool} {s : CoreState} (hinv : Inv NT s) :
    Inv NT (clearOp NT s) := by
  have hc : 0 ≤ s.capacity NT := Nat.zero_le _
  exact ⟨set_size_wf hinv.1 hc, set_size_term hinv.1 hc⟩

/-- Every reachable state satisfies the full invariant. -/
theorem reached_inv {NT : Bool} {s : CoreState} (h : Reached NT s) :
    Inv NT s := by
  induction h with
  | init bs h => exact inv_construct h
  | assign s bs hs h ih => exact inv_assign ih h
  | append s bs hs h ih => exact inv_append ih h
  | push_back s c hs h ih => exact inv_pushBack ih h
  | pop_back s hs h ih => exact inv_popBack ih h
  | insertCh s index count ch hs h ih => exact inv_insertCh ih h
  | insertStr s index bs hs h ih => exact inv_insertStr ih h
  | erase s index count hs ih => exact inv_erase ih
  | resize s count ch hs h ih => exact inv_resize ih h
  | reserve s n hs h ih => exact inv_reserve ih h
  | shrink s hs ih => exact inv_shrink ih
  | clear s hs ih => exact inv_clear ih
  | mv s hs ih => exact inv_emptyCore NT

/-! ## Tier bounds of the selector and `initial_allocate` facts -/

theorem coreTypeNum_le_three (c : CoreType) : coreTypeNum c ≤ 3 := by
  cases c <;> simp [coreTypeNum]

theorem calc_tier_le_one {NT : Bool} {n : Nat}
    (h : n ≤ max_short_buffer_size NT) :
    coreTypeNum (calculate_new_buffer_size NT n).core_type ≤ 1 := by
  rcases le_or_lt n (internal_buffer_size NT) with hb | hb
  · rw [calc_internal_eq hb]; simp [coreTypeNum]
  · rw [calc_short_eq hb h]; simp [coreTypeNum]

theorem calc_tier_le_two {NT : Bool} {n : Nat}
    (h : n ≤ max_median_buffer_size) :
    coreTypeNum (calculate_new_buffer_size NT n).core_type ≤ 2 := by
  rcases le_or_lt n (internal_buffer_size NT) with hb | hb
  · rw [calc_internal_eq hb]; simp [coreTypeNum]
  rcases le_or_lt n (max_short_buffer_size NT) with hs | hs
  · rw [calc_short_eq hb hs]; simp [coreTypeNum]
  · rw [calc_median_eq hs h]; simp [coreTypeNum]

theorem calc_bs_ge_ibs {NT : Bool} {n : Nat} (h2 : n ≤ maxReq NT) :
    internal_buffer_size NT ≤ (calculate_new_buffer_size NT n).buffer_size := by
  have h7 := ibs_le_seven NT
  rcases le_or_lt n (internal_buffer_size NT) with hb | hb
  · rw [calc_internal_eq hb]
  rcases le_or_lt n (max_short_buffer_size NT) with hs | hs
  · rw [calc_short_eq hb hs]
    have := le_AlignUpTo8 (n + nt1 NT)
    dsimp only
    omega
  rcases le_or_lt n max_median_buffer_size with hm | hm
  · rw [calc_median_eq hs hm]
    have := le_AlignUpTo8 (n + median_long_buffer_header_size NT)
    dsimp only
    omega
  · rw [calc_long_eq hm h2]
    have := le_AlignUpTo8 (n + median_long_buffer_header_size NT)
    simp [max_median_buffer_size] at hm
    dsimp only
    omega

theorem initial_allocate_facts {NT : Bool} {L : Nat} (h2 : L ≤ maxReq NT) :
    (initial_allocate NT (calculate_new_buffer_size NT L) L).capacity NT ≤
      (calculate_new_buffer_size NT L).buffer_size ∧
    (initial_allocate NT (calculate_new_buffer_size NT L) L).tier =
      coreTypeNum (calculate_new_buffer_size NT L).core_type := by
  rcases le_or_lt L (internal_buffer_size NT) with hint | hint
  · rw [calc_internal_eq hint]
    constructor <;> simp [initial_allocate, CoreState.capacity,
      CoreState.tier, coreTypeNum]
  · obtain ⟨-, -, -, -, hatier, hacaple⟩ :=
      alloc_spec hint h2 (Nat.le_refl L)
    rw [initial_allocate_eq (calc_core_type_ne_internal hint)]
    rw [capacity_mapData, tier_mapData]
    exact ⟨hacaple, hatier⟩

/-! ## The full `shrink_to_fit` behaviour -/

theorem shrink_spec {NT : Bool} {s : CoreState} (hwf : Wf NT s) :
    (shrinkToFitOp NT s).capacity NT ≤ s.capacity NT ∧
    (shrinkToFitOp NT s).size = s.size ∧
    (shrinkToFitOp NT s).readBytes = s.readBytes ∧
    (shrinkToFitOp NT s).tier ≤ s.tier := by
  simp only [shrinkToFitOp]
  split
  · next hlt =>
      have hmax := wf_size_le_maxReq hwf
      obtain ⟨hw1, hsz1, hcap1, hterm1⟩ := initial_allocate_spec hmax
      obtain ⟨hcap_le, htier⟩ := initial_allocate_facts hmax
      have hsle : s.size ≤ s.dataList.length := by
        have := wf_dataLen hwf
        have := wf_size_le_capacity hwf
        omega
      have hsrc : (s.dataList.take s.size).length = s.size := by
        rw [List.length_take]; omega
      refine ⟨?_, ?_, ?_, ?_⟩
      · rw [capacity_writeAt]; omega
      · rw [size_writeAt, hsz1]
      · unfold CoreState.readBytes
        rw [size_writeAt, dataList_writeAt, hsz1]
        have hdl1 := wf_dataLen hw1
        have hx := @take_memcpyAt_zero
          ((initial_allocate NT (calculate_new_buffer_size NT s.size)
            s.size).dataList) (s.dataList.take s.size) (by omega)
        rw [hsrc] at hx
        rw [hx]
      · rw [tier_writeAt, htier]
        cases s with
        | internal d isz =>
            exfalso
            have := calc_bs_ge_ibs hmax
            simp only [CoreState.capacity] at hlt
            omega
        | short b cap ssz =>
            obtain ⟨-, hc, hn⟩ := hwf
            have hsz : (CoreState.short b cap ssz).size ≤
                max_short_buffer_size NT := by
              cases NT <;>
                simp [CoreState.size, max_short_buffer_size, nt1] at * <;>
                omega
            simpa [CoreState.tier] using calc_tier_le_one hsz
        | median hcap hsz b idle =>
            obtain ⟨-, h1, h2, h3, -⟩ := hwf
            have h9 := hdr_bounds NT
            rcases le_or_lt (CoreState.median hcap hsz b idle).size
              max_median_buffer_size with hm | hm
            · simpa [CoreState.tier] using calc_tier_le_two hm
            · exfalso
              rw [calc_long_eq hm hmax] at hlt
              rw [capacity_median_eq (by omega) (by omega)] at hlt
              have := le_AlignUpTo8 ((CoreState.median hcap hsz b idle).size +
                median_long_buffer_header_size NT)
              simp only [CoreState.size, max_median_buffer_size] at *
              omega
        | long hcap hsz b =>
            simpa [CoreState.tier] using coreTypeNum_le_three
              (calculate_new_buffer_size NT
                (CoreState.long hcap hsz b).size).core_type
  · exact ⟨le_rfl, rfl, rfl, le_rfl⟩

/-! ## The realloc branch of `allocate_more` -/

theorem allocate_more_realloc {NT t : Bool} {extra : Nat} {s : CoreState}
    (hwf : Wf NT s) (hg : growthScaled (s.size + extra) ≤ maxReq NT)
    (hlt : s.idle_capacity NT < extra)
    (hint : internal_buffer_size NT < growthScaled (s.size + extra)) :
    (allocate_more NT t extra s).allocSize =
      (calculate_new_buffer_size_growth NT (s.size + extra)).buffer_size ∧
    (allocate_more NT t extra s).tier =
      coreTypeNum (calculate_new_buffer_size_growth NT
        (s.size + extra)).core_type ∧
    (allocate_more NT t extra s).readBytes = s.readBytes ∧
    (allocate_more NT t extra s).size = s.size := by
  have hm := growthScaled_ge (s.size + extra)
  obtain ⟨hawf, hasz, hacap, haalloc, hatier, -⟩ :=
    @alloc_spec NT (growthScaled (s.size + extra)) s.size hint hg (by omega)
  have hr : allocate_more NT t extra s =
      (let copied := writeAt (allocate_new_external_buffer NT
        (calculate_new_buffer_size NT (growthScaled (s.size + extra))) s.size)
        0 (s.dataList.take s.size)
       if NT && t then copied.mapData (fun d => d.set s.size 0) else copied) := by
    simp only [allocate_more, calculate_new_buffer_size_growth]
    rw [if_neg (by omega)]
  have hsle : s.size ≤ s.dataList.length := by
    have := wf_dataLen hwf
    have := wf_size_le_capacity hwf
    omega
  have hsrc : (s.dataList.take s.size).length = s.size := by
    rw [List.length_take]; omega
  have hadl := wf_dataLen hawf
  have hrb0 : (writeAt (allocate_new_external_buffer NT
      (calculate_new_buffer_size NT (growthScaled (s.size + extra))) s.size)
      0 (s.dataList.take s.size)).readBytes = s.readBytes := by
    unfold CoreState.readBytes
    rw [size_writeAt, dataList_writeAt, hasz]
    have hx := @take_memcpyAt_zero
      ((allocate_new_external_buffer NT
        (calculate_new_buffer_size NT (growthScaled (s.size + extra)))
        s.size).dataList) (s.dataList.take s.size) (by omega)
    rw [hsrc] at hx
    rw [hx]
  rw [hr]
  unfold calculate_new_buffer_size_growth
  by_cases hb : (NT && t) = true
  · simp only [hb, if_true]
    refine ⟨?_, ?_, ?_, ?_⟩
    · rw [allocSize_mapData, allocSize_writeAt]; exact haalloc
    · rw [tier_mapData, tier_writeAt]; exact hatier
    · unfold CoreState.readBytes
      rw [size_mapData, dataList_mapData, size_writeAt, hasz,
        take_set_of_le (Nat.le_refl _)]
      unfold CoreState.readBytes at hrb0
      rw [size_writeAt, hasz] at hrb0
      exact hrb0
    · rw [size_mapData, size_writeAt]; exact hasz
  · simp only [hb, Bool.false_eq_true, if_false]
    refine ⟨?_, ?_, hrb0, ?_⟩
    · rw [allocSize_writeAt]; exact haalloc
    · rw [tier_writeAt]; exact hatier
    · rw [size_writeAt]; exact hasz

/-! ## The claims -/

/-- C1: for every reachable state of a string (any sequence of public
operations: construction, assign, append, insert, erase, resize, reserve,
shrink_to_fit, clear, swap, move), `size() ≤ capacity()` holds.  (`swap`
exchanges two whole cores, and move hands the old core to the destination,
so both map reachable states to reachable states; the `Reached` relation
covers them as explained at its definition.) -/
theorem spec_size_le_capacity (NT : Bool) (s : CoreState)
    (h : Reached NT s) : s.size ≤ s.capacity NT :=
  wf_size_le_capacity (reached_inv h).1

theorem spec_size_le_capacity_witness :
    (construct true [65]).size ≤ (construct true [65]).capacity true :=
  spec_size_le_capacity true _ (Reached.init [65] (by decide))

/-- C2: with the null-terminator policy enabled (`NT = true`), after every
mutating operation the byte at position `size()` equals 0, in every storage
tier: every reachable state satisfies `byte_at(size()) = 0`. -/
theorem spec_terminator_zero (s : CoreState) (h : Reached true s) :
    s.byteAt s.size = 0 :=
  (reached_inv h).2 rfl

theorem spec_terminator_zero_witness :
    (appendOp true [66] (construct true [65])).byteAt
      (appendOp true [66] (construct true [65])).size = 0 :=
  spec_terminator_zero _
    (Reached.append _ [66] (Reached.init [65] (by decide)) (by decide))

/-- C3 (code bug at the top of the Long range): `n = 4294967280 = 2^32-16`
is within the maximum tier's range (`max_long_buffer_size = 2^32-10`,
and the selector's own assert admits it), but `AlignUpTo<8>(n + 9) = 2^32`
truncates to 0 in the `uint32` buffer-size field, so `reserve(n)` allocates
a 0-byte buffer: the stored bytes are lost (and the real program corrupts
the heap writing the header).  This theorem evaluates the model at the
failing input: a one-byte string loses its content across `reserve`. -/
theorem spec_reserve_boundary_bug :
    4294967280 ≤ max_long_buffer_size true ∧
    (calculate_new_buffer_size true 4294967280).buffer_size = 0 ∧
    (construct true [65]).readBytes = [65] ∧
    (reserveOp true 4294967280 (construct true [65])).size =
      (construct true [65]).size ∧
    (reserveOp true 4294967280 (construct true [65])).readBytes = [] := by
  decide

theorem hdr_split (NT : Bool) :
    median_long_buffer_header_size NT = 8 + (if NT then 1 else 0) := by
  cases NT <;> simp [median_long_buffer_header_size]

/-- C4: the pure tier/size selector maps every requested length `L` as the
claim states: `L ≤ 6/7` → Internal; `L ≤ 255/256` → Short with the
(`+1` terminator byte) size 8-aligned; `L ≤ 16383` → Median with the
8-byte header (plus terminator byte) included and 8-aligned; otherwise
Long with the same header format (the size field being the `uint32`
truncation of the aligned value); and every non-Internal buffer size is a
multiple of 8. -/
theorem spec_tier_selector (NT : Bool) (L : Nat) :
    (L ≤ (if NT then 6 else 7) →
      calculate_new_buffer_size NT L =
        ⟨(if NT then 6 else 7), CoreType.Internal⟩) ∧
    ((if NT then 6 else 7) < L → L ≤ (if NT then 255 else 256) →
      calculate_new_buffer_size NT L =
        ⟨AlignUpTo8 (L + (if NT then 1 else 0)), CoreType.Short⟩) ∧
    ((if NT then 255 else 256) < L → L ≤ 16383 →
      calculate_new_buffer_size NT L =
        ⟨AlignUpTo8 (L + 8 + (if NT then 1 else 0)), CoreType.Median⟩) ∧
    (16383 < L →
      (calculate_new_buffer_size NT L).core_type = CoreType.Long ∧
      (calculate_new_buffer_size NT L).buffer_size =
        u32 (AlignUpTo8 (L + 8 + (if NT then 1 else 0)))) ∧
    ((calculate_new_buffer_size NT L).core_type ≠ CoreType.Internal →
      (calculate_new_buffer_size NT L).buffer_size % 8 = 0) := by
  have hib : internal_buffer_size NT = if NT then 6 else 7 := rfl
  have hsm : max_short_buffer_size NT = if NT then 255 else 256 := rfl
  have hn1 : nt1 NT = if NT then 1 else 0 := rfl
  have hhs := hdr_split NT
  refine ⟨?_, ?_, ?_, ?_, ?_⟩
  · intro h
    rw [calc_internal_eq (by omega), hib]
  · intro h1 h2
    rw [calc_short_eq (by omega) (by omega), hn1]
  · intro h1 h2
    rw [calc_median_eq (by omega) (by
      simp [max_median_buffer_size]; omega)]
    rw [hhs]
    have : L + (8 + if NT then 1 else 0) = L + 8 + (if NT then 1 else 0) := by
      omega
    rw [this]
  · intro h1
    have h7 := ibs_le_seven NT
    have hs256 : max_short_buffer_size NT ≤ 256 := by
      cases NT <;> simp [max_short_buffer_size]
    unfold calculate_new_buffer_size
    rw [if_neg (by omega), if_neg (by omega),
      if_neg (by simp [max_median_buffer_size]; omega)]
    refine ⟨rfl, ?_⟩
    rw [hhs]
    have : L + (8 + if NT then 1 else 0) = L + 8 + (if NT then 1 else 0) := by
      omega
    rw [this]
  · intro hne
    have h7 := ibs_le_seven NT
    unfold calculate_new_buffer_size at hne ⊢
    by_cases hb : L ≤ internal_buffer_size NT
    · rw [if_pos hb] at hne
      simp at hne
    rw [if_neg hb] at hne ⊢
    have ha1 := AlignUpTo8_mod (L + nt1 NT)
    have ha2 := AlignUpTo8_mod (L + median_long_buffer_header_size NT)
    by_cases hs : L ≤ max_short_buffer_size NT
    · rw [if_pos hs]
      simp only [u32]
      omega
    rw [if_neg hs]
    by_cases hm : L ≤ max_median_buffer_size
    · rw [if_pos hm]
      simp only [u32]
      omega
    · rw [if_neg hm]
      simp only [u32]
      omega

theorem spec_tier_selector_witness :
    calculate_new_buffer_size true 300 =
      ⟨AlignUpTo8 (300 + 8 + (if true then 1 else 0)), CoreType.Median⟩ ∧
    (calculate_new_buffer_size true 300).buffer_size % 8 = 0 ∧
    calculate_new_buffer_size false 256 =
      ⟨AlignUpTo8 (256 + (if false then 1 else 0)), CoreType.Short⟩ :=
  ⟨(spec_tier_selector true 300).2.2.1 (by decide) (by decide),
   (spec_tier_selector true 300).2.2.2.2 (by decide),
   (spec_tier_selector false 256).2.1 (by decide) (by decide)⟩

/-- C5: with the default terminator policy, appending `extra` bytes when
`idle_capacity() ≥ extra` performs no reallocation and leaves the state
(hence buffer, tier and capacity) unchanged; when idle capacity is
insufficient, the new buffer is the one selected by running tier selection
on `(old_size + extra)` scaled by the 1.5 growth factor
(`calculate_new_buffer_size_growth`), preserving the old contents; an
explicit reserve sizes the buffer by tier-rounding the exact request
(`calculate_new_buffer_size`) without the growth multiplier. -/
theorem spec_growth_policy (s : CoreState) (extra n : Nat)
    (hwf : Wf true s) :
    (extra ≤ s.idle_capacity true → allocate_more true false extra s = s) ∧
    (s.idle_capacity true < extra →
      growthScaled (s.size + extra) ≤ maxReq true →
      (allocate_more true false extra s).allocSize =
        (calculate_new_buffer_size_growth true (s.size + extra)).buffer_size ∧
      (allocate_more true false extra s).tier =
        coreTypeNum (calculate_new_buffer_size_growth true
          (s.size + extra)).core_type ∧
      (allocate_more true false extra s).readBytes = s.readBytes ∧
      (allocate_more true false extra s).size = s.size) ∧
    (s.capacity true < n → n ≤ maxReq true →
      (reserveOp true n s).allocSize =
        (calculate_new_buffer_size true n).buffer_size ∧
      (reserveOp true n s).tier =
        coreTypeNum (calculate_new_buffer_size true n).core_type ∧
      (reserveOp true n s).readBytes = s.readBytes) := by
  refine ⟨allocate_more_of_le, ?_, ?_⟩
  · intro hlt hg
    have hidle := wf_idle_eq_true hwf
    have hcap := wf_internal_le_capacity hwf
    have hsz := wf_size_le_capacity hwf
    have hm := growthScaled_ge (s.size + extra)
    exact allocate_more_realloc hwf hg hlt (by omega)
  · intro hgt hle
    obtain ⟨-, -, -, ha, ht, hrb, -⟩ := buffer_reserve_spec
      (t := true) (c := true) hwf hle hgt
    exact ⟨ha, ht, hrb rfl⟩

theorem spec_growth_policy_witness :
    allocate_more true false 2 (construct true [1, 2, 3]) =
      construct true [1, 2, 3] ∧
    (allocate_more true false 10 (construct true [1, 2, 3])).allocSize =
      (calculate_new_buffer_size_growth true
        ((construct true [1, 2, 3]).size + 10)).buffer_size ∧
    (allocate_more true false 10 (construct true [1, 2, 3])).readBytes =
      (construct true [1, 2, 3]).readBytes ∧
    (reserveOp true 100 (construct true [1, 2, 3])).allocSize =
      (calculate_new_buffer_size true 100).buffer_size :=
  ⟨(spec_growth_policy (construct true [1, 2, 3]) 2 100
      (reached_inv (Reached.init [1, 2, 3] (by decide))).1).1 (by decide),
   ((spec_growth_policy (construct true [1, 2, 3]) 10 100
      (reached_inv (Reached.init [1, 2, 3] (by decide))).1).2.1
      (by decide) (by decide)).1,
   ((spec_growth_policy (construct true [1, 2, 3]) 10 100
      (reached_inv (Reached.init [1, 2, 3] (by decide))).1).2.1
      (by decide) (by decide)).2.2.1,
   ((spec_growth_policy (construct true [1, 2, 3]) 2 100
      (reached_inv (Reached.init [1, 2, 3] (by decide))).1).2.2
      (by decide) (by decide)).1⟩

/-- C6: for every well-formed state, `shrink_to_fit()` never increases
`capacity()`, never changes `size()`, never changes the stored bytes, and
only ever moves the string to an equal-or-lower tier. -/
theorem spec_shrink_to_fit (NT : Bool) (s : CoreState) (hwf : Wf NT s) :
    (shrinkToFitOp NT s).capacity NT ≤ s.capacity NT ∧
    (shrinkToFitOp NT s).size = s.size ∧
    (shrinkToFitOp NT s).readBytes = s.readBytes ∧
    (shrinkToFitOp NT s).tier ≤ s.tier :=
  shrink_spec hwf

theorem spec_shrink_to_fit_witness :
    (shrinkToFitOp true (reserveOp true 100 (construct true [1, 2, 3]))).capacity
        true ≤
      (reserveOp true 100 (construct true [1, 2, 3])).capacity true ∧
    (shrinkToFitOp true (reserveOp true 100 (construct true [1, 2, 3]))).size =
      (reserveOp true 100 (construct true [1, 2, 3])).size ∧
    (shrinkToFitOp true
        (reserveOp true 100 (construct true [1, 2, 3]))).readBytes =
      (reserveOp true 100 (construct true [1, 2, 3])).readBytes ∧
    (shrinkToFitOp true (reserveOp true 100 (construct true [1, 2, 3]))).tier ≤
      (reserveOp true 100 (construct true [1, 2, 3])).tier :=
  spec_shrink_to_fit true _
    (reached_inv (Reached.reserve _ 100 (Reached.init [1, 2, 3] (by decide))
      (by decide))).1

/-- C7: round-trip: for every byte sequence whose length L is one of
{0, 1, 6, 7, 8, 255, 256, 257, 16383, 16384, 1000000}, constructing a
string from it and reading it back through `(data(), size())` yields
exactly the original bytes, and `size() = L`. -/
theorem spec_roundtrip (NT : Bool) (bs : List Nat)
    (h : bs.length ∈ ([0, 1, 6, 7, 8, 255, 256, 257, 16383, 16384,
      1000000] : List Nat)) :
    (construct NT bs).readBytes = bs ∧ (construct NT bs).size = bs.length := by
  have hq : 4294967279 ≤ maxReq NT := by
    cases NT <;> simp [maxReq, median_long_buffer_header_size]
  have hle : bs.length ≤ maxReq NT := by
    simp only [List.mem_cons, List.not_mem_nil, or_false] at h
    rcases h with h | h | h | h | h | h | h | h | h | h | h <;> omega
  obtain ⟨-, hsz, hrb⟩ := construct_spec hle
  exact ⟨hrb, hsz⟩

theorem spec_roundtrip_witness :
    (construct true [1, 2, 3, 4, 5, 6, 7, 8]).readBytes =
      [1, 2, 3, 4, 5, 6, 7, 8] ∧
    (construct true [1, 2, 3, 4, 5, 6, 7, 8]).size =
      ([1, 2, 3, 4, 5, 6, 7, 8] : List Nat).length :=
  spec_roundtrip true [1, 2, 3, 4, 5, 6, 7, 8] (by decide)

/-- C8 counterexample: without the terminator policy, a Median buffer of
total size 16392 holding a string of size 0 (reachable by constructing
16380 bytes and clearing) has header-derived idle capacity
16392 - 0 - 8 = 16384, which truncates to 0 in the 14-bit cached field:
the cached field does **not** equal the header-derived idle capacity. -/
theorem spec_median_idle_counterexample :
    Reached false (clearOp false (resizeOp false 16380 0
      (construct false []))) ∧
    (clearOp false (resizeOp false 16380 0 (construct false []))).tier = 2 ∧
    (clearOp false (resizeOp false 16380 0 (construct false []))).allocSize =
      16392 ∧
    (clearOp false (resizeOp false 16380 0 (construct false []))).size = 0 ∧
    CoreState.idle_from_header false 16392 0 = 16384 ∧
    (clearOp false (resizeOp false 16380 0
      (construct false []))).idle_capacity false = 0 :=
  ⟨Reached.clear _ (Reached.resize _ 16380 0 (Reached.init [] (by decide))
      (by decide)),
   by decide, by decide, by decide, by decide, by decide⟩

/-- C8 (amended): for every reachable state in the Median tier, the 14-bit
cached idle-capacity field equals the idle capacity derived from the
buffer header **reduced modulo 2^14**; with the terminator policy enabled
(the default) the derived idle never exceeds 16383, so the cached field
equals the header-derived idle capacity exactly.  (`allocSize` is the
header capacity field, `size` the header size field.) -/
theorem spec_median_idle_cache (NT : Bool) (s : CoreState)
    (h : Reached NT s) (ht : s.tier = 2) :
    s.idle_capacity NT =
      CoreState.idle_from_header NT s.allocSize s.size % 16384 ∧
    (NT = true →
      s.idle_capacity NT =
        CoreState.idle_from_header NT s.allocSize s.size) := by
  have hwf := (reached_inv h).1
  cases s with
  | internal d isz => simp [CoreState.tier] at ht
  | short b cap ssz => simp [CoreState.tier] at ht
  | long hcap hsz b => simp [CoreState.tier] at ht
  | median hcap hsz b idle =>
      obtain ⟨-, h1, h2, h3, h4⟩ := hwf
      have h9 := hdr_bounds NT
      have hih : CoreState.idle_from_header NT hcap hsz =
          hcap - median_long_buffer_header_size NT - hsz :=
        idle_from_header_eq (by omega) (by omega)
      simp only [CoreState.idle_capacity, CoreState.allocSize, CoreState.size]
      constructor
      · rw [hih]; exact h4
      · intro hNT
        subst hNT
        have h8 : median_long_buffer_header_size true = 9 := rfl
        rw [hih, h4, h8]
        omega

theorem spec_median_idle_cache_witness :
    (resizeOp true 300 0 (construct true [])).idle_capacity true =
      CoreState.idle_from_header true
        (resizeOp true 300 0 (construct true [])).allocSize
        (resizeOp true 300 0 (construct true [])).size :=
  (spec_median_idle_cache true _
    (Reached.resize _ 300 0 (Reached.init [] (by decide)) (by decide))
    (by decide)).2 rfl

/-- C9: moving from a string transfers the whole 8-byte core (hence
ownership of any external buffer) to the destination and resets the source
to the all-zero core, so afterwards the source has `size() = 0`, Internal
tier (holding no pointer: `is_external` is false) and the Internal
capacity. -/
theorem spec_move_semantics (s : CoreState) :
    (moveOp s).1 = s ∧
    (moveOp s).2 = emptyCore ∧
    (moveOp s).2.size = 0 ∧
    (moveOp s).2.tier = 0 ∧
    (moveOp s).2.is_external = false ∧
    (moveOp s).2.capacity true = 6 :=
  ⟨rfl, rfl, rfl, rfl, rfl, rfl⟩

/-- C10: the default (`Safe = true`) accessors `at(pos)` and
`operator[](pos)` throw `std::out_of_range` exactly when `pos ≥ size()` —
including `pos = size()`, even though the terminator policy guarantees a
zero byte there — and otherwise return the byte at position `pos`.  (Both
are pure reads in the model: the string is unchanged.) -/
theorem spec_element_access (s : CoreState) (pos : Nat) :
    (pos < s.size → atOp s pos = Except.ok (s.byteAt pos) ∧
      bracketOp s pos = Except.ok (s.byteAt pos)) ∧
    (s.size ≤ pos → atOp s pos = Except.error () ∧
      bracketOp s pos = Except.error ()) ∧
    (Reached true s → atOp s s.size = Except.error () ∧
      s.byteAt s.size = 0) := by
  refine ⟨?_, ?_, ?_⟩
  · intro h
    unfold atOp bracketOp
    rw [if_neg (by omega)]
    exact ⟨rfl, rfl⟩
  · intro h
    unfold atOp bracketOp
    rw [if_pos h]
    exact ⟨rfl, rfl⟩
  · intro h
    refine ⟨?_, (reached_inv h).2 rfl⟩
    unfold atOp
    rw [if_pos (Nat.le_refl _)]

theorem spec_element_access_witness :
    atOp (construct true [9, 8]) 1 = Except.ok 8 ∧
    atOp (construct true [9, 8]) 2 = Except.error () ∧
    bracketOp (construct true [9, 8]) 5 = Except.error () ∧
    (construct true [9, 8]).byteAt 2 = 0 :=
  ⟨by
    have h := (spec_element_access (construct true [9, 8]) 1).1 (by decide)
    have hb : (construct true [9, 8]).byteAt 1 = 8 := by decide
    rw [h.1, hb],
   (spec_element_access (construct true [9, 8]) 2).2.1 (by decide) |>.1,
   (spec_element_access (construct true [9, 8]) 5).2.1 (by decide) |>.2,
   by
    have := (spec_element_access (construct true [9, 8]) 0).2.2
      (Reached.init [9, 8] (by decide))
    exact this.2⟩

end SmallStr
